import Mathlib

/-!
# Closest-peers lookup of the Kademlia DHT (`lookup.go`)

A shallow embedding of `lookup.go`: the loggable-key formatter, the single-hop
query `GetClosestPeersSingle`, the per-peer query step built by
`newClosestPeersQuery`, and the streaming entry point `GetClosestPeers`.

Conventions of the embedding.

* A Go `string` is a sequence of bytes (`GoString`); indexing and slicing are
  byte operations, and an out-of-range index or slice is a run-time panic,
  rendered here as `none` in the `Option` monad.
* External collaborators (`cid.Cast`, `findPeerSingle`, the routing table, the
  protobuf conversion, `query.Run`) are parameters, gathered in `Deps`.
* Side effects (log lines, published query events, remote calls) are returned
  as an explicit trace of `Effect`s, in program order.
* The goroutine started by `GetClosestPeers` is returned as the list of
  channel operations it performs; `Sys` gives their interleaving semantics
  against a consumer of the result channel.
-/

namespace Lookup

/-! ## Go strings -/

/-- One byte of a Go string. -/
abbrev Byte := Fin 256

/-- A Go `string`: an immutable sequence of bytes. -/
abbrev GoString := List Byte

/-- The byte `'/'`. -/
def slash : Byte := 47

/-- The bytes of an ASCII literal of the source text. -/
def lit (s : String) : GoString := s.toList.map (fun c => Fin.ofNat c.toNat)

/-- Go `len(s)` as an `int`. -/
def len (s : GoString) : Int := (s.length : Int)

/-- Go `s[i]`: panics (`none`) unless `0 ≤ i < len(s)`. -/
def index (s : GoString) (i : Int) : Option Byte :=
  if 0 ≤ i ∧ i < len s then s.get? i.toNat else none

/-- Go `s[lo:hi]`: panics (`none`) unless `0 ≤ lo ≤ hi ≤ len(s)`. -/
def sliceStr (s : GoString) (lo hi : Int) : Option GoString :=
  if 0 ≤ lo ∧ lo ≤ hi ∧ hi ≤ len s then some ((s.take hi.toNat).drop lo.toNat) else none

/-- Go `s[lo:]`, which is `s[lo:len(s)]`. -/
def sliceFrom (s : GoString) (lo : Int) : Option GoString :=
  sliceStr s lo (len s)

/-- The offset of the first occurrence of `c` in `s`, counted from `i`. -/
def indexByteFrom (c : Byte) : GoString → Int → Int
  | [], _ => -1
  | b :: rest, i => if b = c then i else indexByteFrom c rest (i + 1)

/-- Go `strings.IndexByte(s, c)`: the index of the first `c` in `s`, or `-1`. -/
def IndexByte (s : GoString) (c : Byte) : Int := indexByteFrom c s 0

/-! ## Errors -/

/-- A Go `error` value. `errorf` is the result of `fmt.Errorf` with the given
format string and its `%x` key argument (when the format has one); `errorfWrap`
is the same with a further `%v` argument that is itself an error. `remote` stands
for the errors of the external collaborators. -/
inductive GoError where
  | ErrLookupFailure : GoError
  | errorf (format : String) (key : Option GoString) : GoError
  | errorfWrap (format : String) (key : GoString) (cause : GoError) : GoError
  | remote (code : Nat) : GoError
  deriving DecidableEq, Repr

/-! ## `tryFormatLoggableKey` and `loggableKey` -/

/-- The external CID library: `cid.Cast` and `Cid.String`. -/
structure CidLib (Cid : Type) where
  Cast : GoString → Except GoError Cid
  String : Cid → GoString

/-- Lines 18-33 of `tryFormatLoggableKey`: the early returns, or the pair
`(proto, cstr)` handed to `cid.Cast`. `none` is a panic. -/
def keyParts (k : GoString) : Option (Except (GoString × GoError) (GoString × GoString)) :=
  if len k = 0 then
    some (.error ([], .errorf "loggableKey is empty" none))
  else do
    let k0 ← index k 0
    if k0 = slash then do
      let tail ← sliceFrom k 1
      let protoEnd := IndexByte tail slash
      if protoEnd < 0 then
        pure (.error (k, .errorf "loggableKey starts with '/' but is not a path: %x" (some k)))
      else do
        let proto ← sliceStr k 1 (protoEnd + 1)
        let cstr ← sliceFrom k (protoEnd + 2)
        pure (.ok (proto, cstr))
    else
      pure (.ok (lit "provider", k))

/-- Go `tryFormatLoggableKey(k)`: the returned `(string, error)` pair, or `none`
on a panic. -/
def tryFormatLoggableKey {Cid : Type} (lib : CidLib Cid) (k : GoString) :
    Option (GoString × Option GoError) :=
  match keyParts k with
  | none => none
  | some (.error (s, e)) => some (s, some e)
  | some (.ok (proto, cstr)) =>
    match lib.Cast cstr with
    | .error err =>
      some ([], some (.errorfWrap "loggableKey could not cast key to a CID: %x %v" k err))
    | .ok c => some (lit "/" ++ proto ++ lit "/" ++ lib.String c, none)

/-! ## Data exchanged with the collaborators -/

/-- Go `peer.ID`, declared as `type ID string`. -/
abbrev PeerID := GoString

/-- Go `peer.ID(key)`: a conversion between string types, which keeps the bytes. -/
def peerIDOfKey (key : GoString) : PeerID := key

/-- A `context.Context`, identified by a handle, with its cancellation state. -/
structure Ctx where
  handle : Nat
  cancelled : Bool
  deriving DecidableEq, Repr

/-- Go `peer.AddrInfo`. -/
structure AddrInfo where
  ID : PeerID
  Addrs : List GoString
  deriving DecidableEq, Repr

/-- Go `pb.Message_Peer`. -/
structure PBPeer where
  Id : GoString
  Addrs : List GoString
  Connection : Nat
  deriving DecidableEq, Repr

/-- Go `pb.Message`, as far as this file reads it. -/
structure Message where
  Key : GoString
  CloserPeers : List PBPeer
  deriving DecidableEq, Repr

/-- Go `routing.QueryEventType`, the two values used here. -/
inductive QueryEventType where
  | SendingQuery
  | PeerResponse
  deriving DecidableEq, Repr

/-- Go `routing.QueryEvent`, with the fields this file sets; an unset
`Responses` is the nil slice, `none`. -/
structure QueryEvent where
  ID : PeerID
  Type_ : QueryEventType
  Responses : Option (List AddrInfo)
  deriving DecidableEq, Repr

/-- Go `logging.LoggableMap`, as the list of its entries. -/
abbrev LoggableMap := List (String × GoString)

/-- The observable side effects of the functions of this file. -/
inductive Effect where
  | debug (err : GoError) : Effect
  | debugf (format : String) (err : GoError) : Effect
  | eventBegin (ctx : Ctx) (name : String) (m : LoggableMap) : Effect
  | publish (ctx : Ctx) (ev : QueryEvent) : Effect
  | findPeer (ctx : Ctx) (p : PeerID) (id : PeerID) : Effect
  deriving DecidableEq, Repr

/-- A `finishFunc` value. Its signature is declared outside this file and the
file only passes it on, so it is kept as a handle. -/
structure FinishFunc where
  handle : Nat
  deriving DecidableEq, Repr

/-- The result of a per-peer query step: `([]*peer.AddrInfo, error)`, where
`none` in the first component is the nil slice. -/
abbrev StepResult := Option (List AddrInfo) × Option GoError

/-- Go `dhtQuery`, as built by `dht.newQuery(key, f, finish)`: the key, the
per-peer query step (with the effects it performs) and the finish function. -/
structure dhtQuery where
  key : GoString
  qfunc : Ctx → PeerID → StepResult × List Effect
  finish : Option FinishFunc

/-- The collaborators of `lookup.go` that are defined elsewhere. -/
structure Deps (Cid : Type) where
  cid : CidLib Cid
  findPeerSingle : Ctx → PeerID → PeerID → Option Message × Option GoError
  GetCloserPeers : Option Message → List PBPeer
  PBPeersToPeerInfos : List PBPeer → Option (List AddrInfo)
  ConvertKey : GoString → GoString
  NearestPeers : GoString → Nat → List PeerID
  KValue : Nat
  Run : dhtQuery → Ctx → List PeerID → List PeerID × Option GoError

/-! ## `loggableKey` -/

/-- Go `loggableKey(k)`: the map it returns and the debug line it may log;
`none` on a panic of `tryFormatLoggableKey`. -/
def loggableKey {Cid : Type} (lib : CidLib Cid) (k : GoString) :
    Option (LoggableMap × List Effect) :=
  match tryFormatLoggableKey lib k with
  | none => none
  | some (_, some err) => some ([("key", k)], [.debug err])
  | some (newKey, none) => some ([("key", newKey)], [])

/-! ## `GetClosestPeersSingle` and the per-peer query step -/

/-- Go `dht.GetClosestPeersSingle(ctx, from, key)`. -/
def GetClosestPeersSingle {Cid : Type} (d : Deps Cid) (ctx : Ctx) (src : PeerID)
    (key : GoString) : StepResult × List Effect :=
  let call := Effect.findPeer ctx src (peerIDOfKey key)
  match d.findPeerSingle ctx src (peerIDOfKey key) with
  | (_, some err) => ((none, some err), [call, .debugf "error getting closer peers: %s" err])
  | (pmes, none) =>
    let peers := d.PBPeersToPeerInfos (d.GetCloserPeers pmes)
    ((peers, none), [call])

/-- The closure passed to `dht.newQuery` by `newClosestPeersQuery`; `parent` is
the context captured when the query is built, `ctx` the context of the call. -/
def closestPeersStep {Cid : Type} (d : Deps Cid) (parent : Ctx) (key : GoString)
    (ctx : Ctx) (p : PeerID) : StepResult × List Effect :=
  let sending := Effect.publish parent { ID := p, Type_ := .SendingQuery, Responses := none }
  let call := Effect.findPeer ctx p (peerIDOfKey key)
  match d.findPeerSingle ctx p (peerIDOfKey key) with
  | (_, some err) =>
    ((none, some err), [sending, call, .debugf "error getting closer peers: %s" err])
  | (pmes, none) =>
    let peers := d.PBPeersToPeerInfos (d.GetCloserPeers pmes)
    let response := Effect.publish parent { ID := p, Type_ := .PeerResponse, Responses := peers }
    ((peers, none), [sending, call, response])

/-- Go `dht.newClosestPeersQuery(ctx, key, finish)`. -/
def newClosestPeersQuery {Cid : Type} (d : Deps Cid) (ctx : Ctx) (key : GoString)
    (finish : Option FinishFunc) : dhtQuery :=
  let parent := ctx
  { key := key, qfunc := closestPeersStep d parent key, finish := finish }

/-! ## `GetClosestPeers` -/

/-- A Go channel of `peer.ID`: its capacity, the buffered values (oldest first)
and whether it has been closed. -/
structure Chan where
  cap : Nat
  buf : List PeerID
  closed : Bool
  deriving DecidableEq, Repr

/-- Go `make(chan peer.ID, n)`. -/
def Chan.make (n : Nat) : Chan := { cap := n, buf := [], closed := false }

/-- The operations of the goroutine started by `GetClosestPeers`. -/
inductive Op where
  | debugf (format : String) (err : GoError) : Op
  | send (p : PeerID) : Op
  | eventDone : Op
  | close : Op
  deriving DecidableEq, Repr

/-- The body of the goroutine of `GetClosestPeers` (lines 78-90), as the
operations it performs in order; the two deferred calls run last, in the reverse
of the order in which they were deferred. -/
def lookupTask {Cid : Type} (d : Deps Cid) (query : dhtQuery) (ctx : Ctx)
    (tablepeers : List PeerID) : List Op :=
  let (res, err) := d.Run query ctx tablepeers
  let logged : List Op :=
    match err with
    | some e => [.debugf "closestPeers query run error: %s" e]
    | none => []
  logged ++ res.map Op.send ++ [.eventDone, .close]

/-- What a call of `GetClosestPeers` returns and leaves behind: the returned
channel (`none` is the nil channel), the returned error, the effects performed
before returning, and the goroutine it started, if any. -/
structure Started where
  out : Option Chan
  err : Option GoError
  effects : List Effect
  task : Option (List Op)
  deriving DecidableEq, Repr

/-- Go `dht.GetClosestPeers(ctx, key)`; `none` on a panic. -/
def GetClosestPeers {Cid : Type} (d : Deps Cid) (ctx : Ctx) (key : GoString) :
    Option Started :=
  match loggableKey d.cid key with
  | none => none
  | some (m, logs) =>
    let e := Effect.eventBegin ctx "getClosestPeers" m
    let tablepeers := d.NearestPeers (d.ConvertKey key) d.KValue
    if tablepeers.length = 0 then
      some { out := none, err := some .ErrLookupFailure, effects := logs ++ [e], task := none }
    else
      let out := Chan.make d.KValue
      let query := newClosestPeersQuery d ctx key none
      some { out := some out, err := none, effects := logs ++ [e],
             task := some (lookupTask d query ctx tablepeers) }

/-! ## The result channel and its two parties -/

/-- The goroutine of `GetClosestPeers` and the caller reading the channel. -/
inductive Actor where
  | producer
  | consumer
  deriving DecidableEq, Repr

/-- The state of a started lookup: the channel, the operations the goroutine
has still to perform, the values the caller has received so far (in order), how
often the channel has been closed, whether the caller has seen a receive report
the channel closed, and whether a channel operation has panicked. -/
structure Sys where
  chan : Chan
  prog : List Op
  delivered : List PeerID
  closes : Nat
  sawClose : Bool
  panicked : Bool
  deriving DecidableEq, Repr

/-- The state right after `GetClosestPeers` has returned. -/
def Sys.init (ch : Chan) (ops : List Op) : Sys :=
  { chan := ch, prog := ops, delivered := [], closes := 0, sawClose := false, panicked := false }

/-- One step of the goroutine, `none` when it cannot move (it has finished, or
its send is blocked on a full buffer). A send on a closed channel and the close
of a closed channel panic. -/
def producerStep (s : Sys) : Option Sys :=
  if s.panicked then none else
  match s.prog with
  | [] => none
  | .debugf _ _ :: rest => some { s with prog := rest }
  | .eventDone :: rest => some { s with prog := rest }
  | .send p :: rest =>
    if s.chan.closed then some { s with panicked := true }
    else if s.chan.buf.length < s.chan.cap then
      some { s with chan := { s.chan with buf := s.chan.buf ++ [p] }, prog := rest }
    else none
  | .close :: rest =>
    if s.chan.closed then some { s with panicked := true }
    else some { s with chan := { s.chan with closed := true }, prog := rest,
                       closes := s.closes + 1 }

/-- One receive by the caller, `none` when it blocks. A buffered value is taken
first; on an empty closed channel the receive reports the close and delivers
nothing; on an empty open channel the receive takes the value of a goroutine
that is at a send (the hand-over of an unbuffered or empty channel). -/
def consumerStep (s : Sys) : Option Sys :=
  if s.panicked then none else
  match s.chan.buf with
  | v :: rest =>
    some { s with chan := { s.chan with buf := rest }, delivered := s.delivered ++ [v] }
  | [] =>
    if s.chan.closed then some { s with sawClose := true }
    else
      match s.prog with
      | .send p :: rest => some { s with prog := rest, delivered := s.delivered ++ [p] }
      | _ => none

/-- The step of one party. -/
def stepActor : Actor → Sys → Option Sys
  | .producer, s => producerStep s
  | .consumer, s => consumerStep s

/-- Runs a schedule: each named party moves if it can and waits otherwise. -/
def exec : List Actor → Sys → Sys
  | [], s => s
  | a :: rest, s => exec rest ((stepActor a s).getD s)

/-- The values the remaining operations will still send, in order. -/
def pendingSends : List Op → List PeerID
  | [] => []
  | .send p :: rest => p :: pendingSends rest
  | _ :: rest => pendingSends rest

/-- The invariant of a started lookup whose goroutine emits `res`: nothing has
panicked; the values received, buffered and still to be sent make up `res` in
order; either the channel is open, not yet closed and the remaining operations
end in the one `close`, or it has been closed once and the goroutine is done;
and the caller has seen the close only on a closed and drained channel. -/
def Sys.Inv (res : List PeerID) (s : Sys) : Prop :=
  s.panicked = false ∧
  s.delivered ++ s.chan.buf ++ pendingSends s.prog = res ∧
  ((s.chan.closed = false ∧ s.closes = 0 ∧ s.sawClose = false ∧
      ∃ body, s.prog = body ++ [Op.close] ∧ Op.close ∉ body) ∨
    (s.chan.closed = true ∧ s.closes = 1 ∧ s.prog = [])) ∧
  (s.sawClose = true → s.chan.buf = [])

/-- The number of steps a started lookup is at most away from completion. -/
def Sys.measure (s : Sys) : Nat := 2 * s.prog.length + s.chan.buf.length

/-! ## The iterative query engine

`query.Run` and the shortlist it works on are defined outside `lookup.go`. The
definitions of this section follow the specification of the engine:
the distance metric (4.1), the shortlist operations (4.2) and the round-based
scheduler (4.3). -/

/-- Modelled from the spec: the unsigned integer a fixed-length byte sequence
(an identity or a key) is interpreted as; the byte sequence to integer
conversion of the distance metric is missing from the source. -/
def keyNat (s : GoString) : Nat := s.foldl (fun acc b => acc * 256 + b.val) 0

/-- Modelled from the spec: `distance(peerIdentity, targetKey)`, missing from the
source, "the bitwise exclusive-or of identity and key interpreted as an unsigned
integer; smaller is closer". -/
def distance (p : PeerID) (key : GoString) : Nat := keyNat p ^^^ keyNat key

/-- Modelled from the spec: the status of a Shortlist Entry, missing from the
source. -/
inductive Status where
  | Unqueried
  | InFlight
  | QueriedSuccess
  | QueriedFailed
  deriving DecidableEq, Repr

/-- Modelled from the spec: a Shortlist Entry, missing from the source,
`{peer identity, contact info, status}`. -/
structure ShortlistEntry where
  peer : PeerID
  contact : List GoString
  status : Status
  deriving DecidableEq, Repr

/-- Modelled from the spec: the Query State, missing from the source: the
Shortlist Entries, the round watermark and the count of in-flight calls. -/
structure QueryState where
  entries : List ShortlistEntry
  watermark : Nat
  inflight : Nat
  deriving DecidableEq, Repr

/-- Modelled from the spec: the order on identities that breaks ties of
Distance, missing from the source; byte-wise lexicographic. -/
def idLe : PeerID → PeerID → Bool
  | [], _ => true
  | _ :: _, [] => false
  | a :: as, b :: bs => decide (a < b) || (decide (a = b) && idLe as bs)

/-- Modelled from the spec: the ranking of Shortlist Entries, missing from the
source: by Distance to the target key, "with ties broken by identity". -/
def Closer (key : GoString) (a b : ShortlistEntry) : Prop :=
  distance a.peer key < distance b.peer key ∨
    (distance a.peer key = distance b.peer key ∧ idLe a.peer b.peer = true)

instance Closer.decidable (key : GoString) : DecidableRel (Closer key) :=
  fun a b => by unfold Closer; exact inferInstance

/-- Modelled from the spec: the entries ordered by Distance, smallest first;
the ordering of the shortlist is missing from the source. -/
def ranked (key : GoString) (entries : List ShortlistEntry) : List ShortlistEntry :=
  entries.insertionSort (Closer key)

/-- Modelled from the spec: whether the shortlist, missing from the source,
already has an entry for the identity. -/
def known (entries : List ShortlistEntry) (p : PeerID) : Bool :=
  entries.any (fun e => decide (e.peer = p))

/-- Modelled from the spec: the merge of one observed peer into the entry set,
missing from the source: "new peers inserted Unqueried; already-known peers are
left untouched". -/
def observe (entries : List ShortlistEntry) (p : AddrInfo) : List ShortlistEntry :=
  if known entries p.ID then entries
  else entries ++ [{ peer := p.ID, contact := p.Addrs, status := .Unqueried }]

/-- Modelled from the spec: `seed(initialPeers)`, missing from the source:
"inserts the routing table's local best guess, all marked Unqueried". Its
failure on an empty seed set is raised by `specRun`, before seeding. -/
def seed (initialPeers : List PeerID) : QueryState :=
  { entries := initialPeers.foldl (fun es p => observe es { ID := p, Addrs := [] }) [],
    watermark := 0, inflight := 0 }

/-- Modelled from the spec: the status update of one peer, missing from the
source. -/
def mark (entries : List ShortlistEntry) (p : PeerID) (st : Status) : List ShortlistEntry :=
  entries.map (fun e => if e.peer = p then { e with status := st } else e)

/-- Modelled from the spec: `selectNextBatch(limit)`, missing from the source:
"returns up to `limit` Unqueried entries with smallest Distance, marks them
InFlight". -/
def selectNextBatch (key : GoString) (limit : Nat) (q : QueryState) :
    List PeerID × QueryState :=
  let batch := (((ranked key q.entries).filter (fun e => decide (e.status = .Unqueried))).take
    limit).map (fun e => e.peer)
  (batch, { q with entries := batch.foldl (fun es p => mark es p .InFlight) q.entries,
                   inflight := q.inflight + batch.length })

/-- Modelled from the spec: `recordSuccess(peer, discoveredPeers)`, missing from
the source: "marks `peer` Queried-Success; merges `discoveredPeers` into the
entry set"; a discovered identity equal to the lookup's own is "ignored as a
candidate". -/
def recordSuccess (self : PeerID) (q : QueryState) (p : PeerID)
    (discoveredPeers : List AddrInfo) : QueryState :=
  { q with entries := (discoveredPeers.filter (fun a => decide (a.ID ≠ self))).foldl observe
                        (mark q.entries p .QueriedSuccess),
           inflight := q.inflight - 1 }

/-- Modelled from the spec: `recordFailure(peer)`, missing from the source:
"marks `peer` Queried-Failed". -/
def recordFailure (q : QueryState) (p : PeerID) : QueryState :=
  { q with entries := mark q.entries p .QueriedFailed, inflight := q.inflight - 1 }

/-- Modelled from the spec: `snapshotClosest(k)`, missing from the source:
"returns the k entries with the smallest Distance among Queried-Success (and, if
insufficient successes exist, falls back to best-known regardless of status)". -/
def snapshotClosest (key : GoString) (k : Nat) (q : QueryState) : List ShortlistEntry :=
  let successes := q.entries.filter (fun e => decide (e.status = .QueriedSuccess))
  if k ≤ successes.length then (ranked key successes).take k
  else (ranked key q.entries).take k

/-- Modelled from the spec: the closest-known distance among all entries,
missing from the source (`0` when there is no entry). -/
def closestDistance (key : GoString) : List ShortlistEntry → Nat
  | [] => 0
  | e :: es => es.foldl (fun m x => min m (distance x.peer key)) (distance e.peer key)

/-- Modelled from the spec: whether no Unqueried entry remains in the shortlist,
missing from the source ("the frontier is exhausted"). -/
def exhausted (q : QueryState) : Bool :=
  q.entries.all (fun e => decide (e.status ≠ .Unqueried))

/-- Modelled from the spec: one round of the scheduler, missing from the source
(steps 2a to 2d): snapshot the round watermark, select and dispatch a batch, and
merge each outcome, a success with its returned peers, a failure as a failure. -/
def round (self : PeerID) (alpha : Nat) (query : dhtQuery) (ctx : Ctx) (q : QueryState) :
    QueryState :=
  let q0 := { q with watermark := closestDistance query.key q.entries }
  let (batch, q1) := selectNextBatch query.key alpha q0
  batch.foldl (fun st p =>
    match (query.qfunc ctx p).1 with
    | (peers, none) => recordSuccess self st p (peers.getD [])
    | (_, some _) => recordFailure st p) q1

/-- Modelled from the spec: the round loop of the scheduler, missing from the
source (step 2): rounds are run until the frontier is exhausted, a full round
brought no improvement on the round watermark, or the cancellation has fired.
`none` when the round budget `fuel` is used up before termination. -/
def rounds (self : PeerID) (alpha : Nat) (query : dhtQuery) (ctx : Ctx) :
    Nat → QueryState → Option QueryState
  | 0, _ => none
  | fuel + 1, q =>
    if ctx.cancelled = true ∨ exhausted q = true then some q
    else
      let q1 := round self alpha query ctx q
      if exhausted q1 = true ∨ ¬ closestDistance query.key q1.entries < q1.watermark then some q1
      else rounds self alpha query ctx fuel q1

/-- Modelled from the spec: `query.Run(ctx, peers)`, missing from the source
(section 4.3): seed the Query State, fail with a lookup failure on an empty seed
set, run the rounds, and answer `snapshotClosest(K)`. The round budget is the
closest seed distance plus one: every further round needs a strictly smaller
closest distance, so the budget is never used up. -/
def specRun (self : PeerID) (alpha K : Nat) (query : dhtQuery) (ctx : Ctx)
    (peers : List PeerID) : List PeerID × Option GoError :=
  if peers.length = 0 then ([], some .ErrLookupFailure)
  else
    let q := seed peers
    match rounds self alpha query ctx (closestDistance query.key q.entries + 1) q with
    | some final => ((snapshotClosest query.key K final).map (fun e => e.peer), none)
    | none => ([], some (.errorf "query did not terminate" none))

/-! ## The wording of the claims about the key formatter -/

/-- The protocol part of a key as the claims word it: the text between the
first and the second slash of a key that starts with a slash, and `provider`
for any other key. -/
def claimedProto : GoString → GoString
  | [] => lit "provider"
  | b :: rest => if b = slash then rest.takeWhile (fun x => decide (x ≠ slash)) else lit "provider"

/-- The CID part of a key as the claims word it: everything after the second
slash of a key that starts with a slash, and the whole key otherwise. -/
def claimedCidPart : GoString → GoString
  | [] => []
  | b :: rest =>
    if b = slash then (rest.dropWhile (fun x => decide (x ≠ slash))).tail else b :: rest

/-- Whether `cid.Cast` fails on a byte string. -/
def castFails {Cid : Type} (lib : CidLib Cid) (s : GoString) : Prop :=
  ∃ err, lib.Cast s = .error err

/-- Whether an effect is a call of `findPeerSingle`. -/
def Effect.isFindPeer : Effect → Bool
  | .findPeer _ _ _ => true
  | _ => false

/-- Whether an effect is the publication of a query event. -/
def Effect.isPublish : Effect → Bool
  | .publish _ _ => true
  | _ => false

/-! ## Concrete collaborators, for evaluating the definitions -/

/-- A CID library that accepts exactly the two-byte strings. -/
def sampleCid : CidLib GoString :=
  { Cast := fun s => if s.length = 2 then .ok s else .error (.remote 1),
    String := fun c => c ++ c }

/-- The closer peers the sample network reports: peer `5` knows peer `2`. -/
def samplePeersOf : PeerID → List PBPeer
  | [5] => [{ Id := [2], Addrs := [], Connection := 0 }]
  | _ => []

/-- The sample remote call: peer `9` is unreachable, every other peer answers. -/
def sampleFindPeerSingle (_ : Ctx) (p _id : PeerID) : Option Message × Option GoError :=
  if p = [9] then (none, some (.remote 3))
  else (some { Key := [], CloserPeers := samplePeersOf p }, none)

/-- The nil-safe getter of the sample message type. -/
def sampleGetCloserPeers : Option Message → List PBPeer
  | some m => m.CloserPeers
  | none => []

/-- The sample conversion of wire peers, one address record per peer. -/
def samplePBPeersToPeerInfos (l : List PBPeer) : Option (List AddrInfo) :=
  some (l.map (fun p => ({ ID := p.Id, Addrs := p.Addrs } : AddrInfo)))

/-- A node whose routing table knows the peers `12`, `5` and `9`, and whose
query engine is the specified one with concurrency 3 and `K = 20`. -/
def sampleDeps : Deps GoString :=
  { cid := sampleCid,
    findPeerSingle := sampleFindPeerSingle,
    GetCloserPeers := sampleGetCloserPeers,
    PBPeersToPeerInfos := samplePBPeersToPeerInfos,
    ConvertKey := id,
    NearestPeers := fun _ _ => [[12], [5], [9]],
    KValue := 20,
    Run := specRun [77] 3 20 }

/-- The same node with an empty routing table. -/
def emptyTableDeps : Deps GoString :=
  { sampleDeps with NearestPeers := fun _ _ => [] }

/-- A node whose query engine fails with an error and still returns two peers,
behind a channel of capacity one. -/
def failingRunDeps : Deps GoString :=
  { sampleDeps with
    KValue := 1,
    Run := fun _ _ _ => ([[1], [2]], some (.remote 7)) }

/-- The remote call of the walk-through of the specification: every peer
answers, and only peer `5` knows a closer peer, `2`. -/
def scenarioFindPeerSingle (_ : Ctx) (p _id : PeerID) : Option Message × Option GoError :=
  (some { Key := [], CloserPeers := samplePeersOf p }, none)

/-- The node of the walk-through of the specification: seeds at distances 5, 9
and 12 of the key `0`, in the order the routing table lists them. -/
def scenarioDeps : Deps GoString :=
  { sampleDeps with
    findPeerSingle := scenarioFindPeerSingle,
    NearestPeers := fun _ _ => [[5], [9], [12]] }

/-- A context that has not been cancelled. -/
def sampleCtx : Ctx := { handle := 0, cancelled := false }

/-- The context of one remote call, distinct from `sampleCtx` and already
cancelled. -/
def callCtx : Ctx := { handle := 1, cancelled := true }

/-! ## Go strings: indexing and slicing -/

theorem indexByteFrom_absent (c : Byte) (s : GoString) (i : Int) (h : c ∉ s) :
    indexByteFrom c s i = -1 := by
  induction s generalizing i with
  | nil => rfl
  | cons b rest ih =>
    have hb : b ≠ c := fun e => h (by simp [e])
    have hr : c ∉ rest := fun e => h (by simp [e])
    simp [indexByteFrom, hb, ih _ hr]

theorem indexByteFrom_split (c : Byte) (pre post : GoString) (i : Int) (h : c ∉ pre) :
    indexByteFrom c (pre ++ c :: post) i = i + pre.length := by
  induction pre generalizing i with
  | nil => simp [indexByteFrom]
  | cons b rest ih =>
    have hb : b ≠ c := fun e => h (by simp [e])
    have hr : c ∉ rest := fun e => h (by simp [e])
    simp [indexByteFrom, hb, ih _ hr]
    omega

theorem index_zero_cons (b : Byte) (rest : GoString) : index (b :: rest) 0 = some b := by
  have h1 : (0 : Int) < (rest.length : Int) + 1 := by omega
  simp [index, len, h1]

theorem sliceStr_nat (s : GoString) (lo hi : Nat) (h1 : lo ≤ hi) (h2 : hi ≤ s.length) :
    sliceStr s (lo : Int) (hi : Int) = some ((s.take hi).drop lo) := by
  have a : (0 : Int) ≤ (lo : Int) ∧ (lo : Int) ≤ (hi : Int) ∧ (hi : Int) ≤ len s := by
    refine ⟨by omega, by omega, ?_⟩
    unfold len
    omega
  simp only [sliceStr, if_pos a, Int.toNat_ofNat]

theorem sliceFrom_nat (s : GoString) (lo : Nat) (h : lo ≤ s.length) :
    sliceFrom s (lo : Int) = some (s.drop lo) := by
  unfold sliceFrom len
  rw [sliceStr_nat s lo s.length h (le_refl _), List.take_length]

theorem len_cons_ne_zero (b : Byte) (rest : GoString) : ¬ (len (b :: rest) = 0) := by
  simp only [len, List.length_cons]
  omega

/-- A string that contains `c` splits at its first `c`. -/
theorem split_first (c : Byte) (s : GoString) (h : c ∈ s) :
    s = s.takeWhile (fun x => decide (x ≠ c)) ++ c :: (s.dropWhile (fun x => decide (x ≠ c))).tail
      ∧ c ∉ s.takeWhile (fun x => decide (x ≠ c)) := by
  induction s with
  | nil => simp at h
  | cons b rest ih =>
    by_cases hb : b = c
    · subst hb
      simp [List.takeWhile, List.dropWhile]
    · have hr : c ∈ rest := by
        rcases List.mem_cons.mp h with e | e
        · exact absurd e.symm hb
        · exact e
      obtain ⟨e1, e2⟩ := ih hr
      have hc : ¬ c = b := fun e => hb e.symm
      simp only [List.takeWhile, List.dropWhile, hb, ne_eq, not_false_eq_true, decide_True,
        List.cons_append, List.mem_cons, hc, false_or]
      exact ⟨by rw [← e1], e2⟩

/-! ## `keyParts`, case by case -/

theorem keyParts_nil :
    keyParts [] = some (.error ([], .errorf "loggableKey is empty" none)) := by
  simp [keyParts, len]

theorem keyParts_plain (b : Byte) (rest : GoString) (hb : b ≠ slash) :
    keyParts (b :: rest) = some (.ok (lit "provider", b :: rest)) := by
  simp [keyParts, len_cons_ne_zero, index_zero_cons, hb]

theorem keyParts_notPath (rest : GoString) (h : slash ∉ rest) :
    keyParts (slash :: rest) = some (.error (slash :: rest,
      .errorf "loggableKey starts with '/' but is not a path: %x" (some (slash :: rest)))) := by
  have e2 : sliceFrom (slash :: rest) 1 = some rest := by
    simpa using sliceFrom_nat (slash :: rest) 1 (by simp)
  simp [keyParts, len_cons_ne_zero, index_zero_cons, e2, IndexByte,
    indexByteFrom_absent _ _ _ h]

theorem keyParts_path (pre post : GoString) (h : slash ∉ pre) :
    keyParts (slash :: (pre ++ slash :: post)) = some (.ok (pre, post)) := by
  have e2 : sliceFrom (slash :: (pre ++ slash :: post)) 1 = some (pre ++ slash :: post) := by
    simpa using sliceFrom_nat (slash :: (pre ++ slash :: post)) 1 (by simp)
  have e3 : IndexByte (pre ++ slash :: post) slash = (pre.length : Int) := by
    simp [IndexByte, indexByteFrom_split _ _ _ _ h]
  have e4 : sliceStr (slash :: (pre ++ slash :: post)) 1 ((pre.length : Int) + 1) = some pre := by
    have := sliceStr_nat (slash :: (pre ++ slash :: post)) 1 (pre.length + 1) (by omega)
      (by simp)
    simpa using this
  have e5 : sliceFrom (slash :: (pre ++ slash :: post)) ((pre.length : Int) + 2) = some post := by
    have := sliceFrom_nat (slash :: (pre ++ slash :: post)) (pre.length + 2) (by simp)
    simpa using this
  have e6 : ¬ ((pre.length : Int) < 0) := by omega
  simp only [keyParts, len_cons_ne_zero, index_zero_cons, e2, e3, e4, e5, e6, if_false, if_true,
    Option.bind_eq_bind, Option.some_bind, Option.pure_def, bind, pure]

theorem lit_slash : lit "/" = [slash] := by decide

/-- The four cases of `keyParts`, over all keys: it never panics. -/
theorem keyParts_cases (k : GoString) :
    (k = [] ∧ keyParts k = some (.error ([], .errorf "loggableKey is empty" none))) ∨
    (∃ b rest, k = b :: rest ∧ b ≠ slash ∧ keyParts k = some (.ok (lit "provider", k)) ∧
      claimedProto k = lit "provider" ∧ claimedCidPart k = k) ∨
    (∃ rest, k = slash :: rest ∧ slash ∉ rest ∧ keyParts k = some (.error (k,
      .errorf "loggableKey starts with '/' but is not a path: %x" (some k)))) ∨
    (∃ rest, k = slash :: rest ∧ slash ∈ rest ∧
      keyParts k = some (.ok (claimedProto k, claimedCidPart k)) ∧
      k = slash :: (claimedProto k ++ slash :: claimedCidPart k) ∧
      slash ∉ claimedProto k) := by
  cases k with
  | nil => exact Or.inl ⟨rfl, keyParts_nil⟩
  | cons b rest =>
    by_cases hb : b = slash
    · subst hb
      by_cases hr : slash ∈ rest
      · obtain ⟨e1, e2⟩ := split_first slash rest hr
        have e3 := keyParts_path _ (rest.dropWhile (fun x => decide (x ≠ slash))).tail e2
        rw [← e1] at e3
        refine Or.inr (Or.inr (Or.inr ⟨rest, rfl, hr, ?_, ?_, ?_⟩))
        · simpa [claimedProto, claimedCidPart] using e3
        · simpa [claimedProto, claimedCidPart] using e1
        · simpa [claimedProto] using e2
      · exact Or.inr (Or.inr (Or.inl ⟨rest, rfl, hr, keyParts_notPath rest hr⟩))
    · exact Or.inr (Or.inl ⟨b, rest, rfl, hb, keyParts_plain b rest hb,
        by simp [claimedProto, hb], by simp [claimedCidPart, hb]⟩)

/-- Whatever the CID library does, `tryFormatLoggableKey` returns a pair. -/
theorem tryFormatLoggableKey_returns {Cid : Type} (lib : CidLib Cid) (k : GoString) :
    ∃ s e, tryFormatLoggableKey lib k = some (s, e) := by
  unfold tryFormatLoggableKey
  rcases keyParts_cases k with ⟨_, h⟩ | ⟨_, _, _, _, h, _⟩ | ⟨_, _, _, h⟩ | ⟨_, _, _, h, _⟩
  · rw [h]; exact ⟨_, _, rfl⟩
  · rw [h]
    dsimp only
    cases lib.Cast k <;> exact ⟨_, _, rfl⟩
  · rw [h]; exact ⟨_, _, rfl⟩
  · rw [h]
    dsimp only
    cases lib.Cast (claimedCidPart k) <;> exact ⟨_, _, rfl⟩

/-! ## The claims about the key formatter -/

/-- C8: for every key `k`, every index and slice expression of
`tryFormatLoggableKey` is in bounds, so neither the parsing part nor the whole
function panics, whatever `cid.Cast` answers; and for every `k` that starts with
a slash and has a later slash, the extracted `proto` and `cstr` satisfy
`k = "/" ++ proto ++ "/" ++ cstr` with no slash in `proto`. -/
theorem tryFormatLoggableKey_slices_in_bounds (k : GoString) :
    (keyParts k).isSome = true ∧
    (∀ (Cid : Type) (lib : CidLib Cid), (tryFormatLoggableKey lib k).isSome = true) ∧
    (∀ rest, k = slash :: rest → slash ∈ rest →
      ∃ proto cstr, keyParts k = some (.ok (proto, cstr)) ∧
        k = lit "/" ++ proto ++ lit "/" ++ cstr ∧ slash ∉ proto) := by
  refine ⟨?_, ?_, ?_⟩
  · rcases keyParts_cases k with ⟨_, h⟩ | ⟨_, _, _, _, h, _⟩ | ⟨_, _, _, h⟩ | ⟨_, _, _, h, _⟩ <;>
      simp [h]
  · intro Cid lib
    obtain ⟨s, e, h⟩ := tryFormatLoggableKey_returns lib k
    simp [h]
  · intro rest hk hr
    rcases keyParts_cases k with ⟨h0, _⟩ | ⟨b, r, h1, hb, _⟩ | ⟨r, h1, hn, _⟩ |
        ⟨r, _, _, h, e, hp⟩
    · simp [h0] at hk
    · rw [h1] at hk
      exact absurd (List.cons.inj hk).1 hb
    · rw [h1] at hk
      rw [(List.cons.inj hk).2] at hn
      exact absurd hr hn
    · refine ⟨claimedProto k, claimedCidPart k, h, ?_, hp⟩
      rw [lit_slash]
      simpa using e

/-- C8, evaluated: the keys `/`, `//` and `/ab/` do not panic, and `/ab/cd`
splits into `ab` and `cd`. -/
theorem tryFormatLoggableKey_slices_in_bounds_witness :
    (tryFormatLoggableKey sampleCid (lit "/")).isSome = true ∧
    (tryFormatLoggableKey sampleCid (lit "//")).isSome = true ∧
    (tryFormatLoggableKey sampleCid (lit "/ab/")).isSome = true ∧
    keyParts (lit "/ab/cd") = some (.ok (lit "ab", lit "cd")) ∧
    ∃ proto cstr, keyParts (lit "/ab/cd") = some (.ok (proto, cstr)) ∧
      lit "/ab/cd" = lit "/" ++ proto ++ lit "/" ++ cstr ∧ slash ∉ proto :=
  ⟨(tryFormatLoggableKey_slices_in_bounds (lit "/")).2.1 _ sampleCid,
   (tryFormatLoggableKey_slices_in_bounds (lit "//")).2.1 _ sampleCid,
   (tryFormatLoggableKey_slices_in_bounds (lit "/ab/")).2.1 _ sampleCid,
   by rfl,
   (tryFormatLoggableKey_slices_in_bounds (lit "/ab/cd")).2.2 (lit "ab/cd") (by decide)
     (by decide)⟩

/-- C9: `tryFormatLoggableKey k` returns an error exactly when `k` is empty, or
starts with a slash and has no later slash, or `cid.Cast` fails on the CID part
of `k`. The string returned with the error is empty in the empty case and in the
cast-failure case and is `k` in the not-a-path case. Without an error the string
is `"/" ++ proto ++ "/" ++ c.String()`, where `c` is the cast CID part and
`proto` is `provider` for every `k` that does not start with a slash. -/
theorem tryFormatLoggableKey_error_iff {Cid : Type} (lib : CidLib Cid) (k : GoString) :
    ∃ s e, tryFormatLoggableKey lib k = some (s, e) ∧
      (e.isSome = true ↔
        (k = [] ∨ (∃ rest, k = slash :: rest ∧ slash ∉ rest) ∨
          castFails lib (claimedCidPart k))) ∧
      (k = [] → s = []) ∧
      ((∃ rest, k = slash :: rest ∧ slash ∉ rest) → s = k) ∧
      (k ≠ [] → (¬ ∃ rest, k = slash :: rest ∧ slash ∉ rest) →
        castFails lib (claimedCidPart k) → s = []) ∧
      (e = none → ∃ c, lib.Cast (claimedCidPart k) = .ok c ∧
        s = lit "/" ++ claimedProto k ++ lit "/" ++ lib.String c) ∧
      (∀ b rest, k = b :: rest → b ≠ slash → claimedProto k = lit "provider") := by
  have hprov : ∀ b rest, k = b :: rest → b ≠ slash → claimedProto k = lit "provider" := by
    intro b rest hk hb
    simp [hk, claimedProto, hb]
  unfold tryFormatLoggableKey castFails
  rcases keyParts_cases k with ⟨h0, h⟩ | ⟨b, r, h1, hb, h, hp, hc⟩ | ⟨r, h1, hn, h⟩ |
      ⟨r, h1, hr, h, e, hp⟩
  · rw [h]
    refine ⟨_, _, rfl, ?_, ?_, ?_, ?_, ?_, hprov⟩
    · simp [h0]
    · intro _; rfl
    · rintro ⟨rest, hk, _⟩
      simp [h0] at hk
    · intro hne
      exact absurd h0 hne
    · intro hnone
      simp at hnone
  · have hne : k ≠ [] := by simp [h1]
    have hnp : ¬ ∃ rest, k = slash :: rest ∧ slash ∉ rest := by
      rintro ⟨rest, hk, _⟩
      rw [h1] at hk
      exact hb (List.cons.inj hk).1
    rw [h, hc]
    dsimp only
    cases hcast : lib.Cast k with
    | error err =>
      refine ⟨_, _, rfl, ?_, ?_, ?_, ?_, ?_, hprov⟩
      · simp [hne, hnp]
      · intro h0; exact absurd h0 hne
      · intro hx; exact absurd hx hnp
      · intro _ _ _; rfl
      · intro hnone
        simp at hnone
    | ok c =>
      refine ⟨_, _, rfl, ?_, ?_, ?_, ?_, ?_, hprov⟩
      · simp [hne, hnp]
      · intro h0; exact absurd h0 hne
      · intro hx; exact absurd hx hnp
      · rintro _ _ ⟨err, he⟩
        simp at he
      · intro _
        exact ⟨c, rfl, by rw [hp]⟩
  · rw [h]
    have hnp : ∃ rest, k = slash :: rest ∧ slash ∉ rest := ⟨r, h1, hn⟩
    refine ⟨_, _, rfl, ?_, ?_, ?_, ?_, ?_, hprov⟩
    · simp only [Option.isSome_some, true_iff]
      exact Or.inr (Or.inl hnp)
    · intro h0
      simp [h0] at h1
    · intro _; rfl
    · intro _ hx; exact absurd hnp hx
    · intro hnone
      simp at hnone
  · have hne : k ≠ [] := by simp [h1]
    have hnp : ¬ ∃ rest, k = slash :: rest ∧ slash ∉ rest := by
      rintro ⟨rest, hk, hx⟩
      rw [h1] at hk
      rw [← (List.cons.inj hk).2] at hx
      exact hx hr
    rw [h]
    dsimp only
    cases hcast : lib.Cast (claimedCidPart k) with
    | error err =>
      refine ⟨_, _, rfl, ?_, ?_, ?_, ?_, ?_, hprov⟩
      · simp [hne, hnp]
      · intro h0; exact absurd h0 hne
      · intro hx; exact absurd hx hnp
      · intro _ _ _; rfl
      · intro hnone
        simp at hnone
    | ok c =>
      refine ⟨_, _, rfl, ?_, ?_, ?_, ?_, ?_, hprov⟩
      · simp [hne, hnp]
      · intro h0; exact absurd h0 hne
      · intro hx; exact absurd hx hnp
      · rintro _ _ ⟨err, he⟩
        simp at he
      · intro _
        exact ⟨c, rfl, rfl⟩

/-! ## `loggableKey` and the start of a lookup -/

/-- The map and the log of `loggableKey`, read off the formatter's answer. -/
theorem loggableKey_eq {Cid : Type} (lib : CidLib Cid) (k : GoString) :
    (∃ s, tryFormatLoggableKey lib k = some (s, none) ∧
      loggableKey lib k = some ([("key", s)], [])) ∨
    (∃ s err, tryFormatLoggableKey lib k = some (s, some err) ∧
      loggableKey lib k = some ([("key", k)], [.debug err])) := by
  obtain ⟨s, e, h⟩ := tryFormatLoggableKey_returns lib k
  cases e with
  | none => exact Or.inl ⟨s, h, by simp [loggableKey, h]⟩
  | some err => exact Or.inr ⟨s, err, h, by simp [loggableKey, h]⟩

/-- The result of `GetClosestPeers` in terms of the routing table's answer. -/
theorem getClosestPeers_eq {Cid : Type} (d : Deps Cid) (ctx : Ctx) (key : GoString) :
    ∃ v logs, loggableKey d.cid key = some ([("key", v)], logs) ∧
      GetClosestPeers d ctx key = some
        (if (d.NearestPeers (d.ConvertKey key) d.KValue).length = 0 then
          { out := none, err := some .ErrLookupFailure,
            effects := logs ++ [.eventBegin ctx "getClosestPeers" [("key", v)]], task := none }
        else
          { out := some (Chan.make d.KValue), err := none,
            effects := logs ++ [.eventBegin ctx "getClosestPeers" [("key", v)]],
            task := some (lookupTask d (newClosestPeersQuery d ctx key none) ctx
              (d.NearestPeers (d.ConvertKey key) d.KValue)) }) := by
  rcases loggableKey_eq d.cid key with ⟨s, _, h⟩ | ⟨s, err, _, h⟩
  · refine ⟨s, [], h, ?_⟩
    simp only [GetClosestPeers, h]
    split <;> rfl
  · refine ⟨key, [.debug err], h, ?_⟩
    simp only [GetClosestPeers, h]
    split <;> rfl

/-- C7: for every key `k` (empty, not a path and not a CID included),
`loggableKey` never fails: it returns a map with the single entry `key`, whose
value is the formatted key when `tryFormatLoggableKey` succeeds and `k` itself
when it returns an error, in which case the error is logged at debug level.
Consequently the key's formatting reaches `GetClosestPeers` only through that
debug line and the logged map: on every node the call returns, and its channel,
error and goroutine are those fixed by the routing table alone (the nil channel
and `kb.ErrLookupFailure` on an empty seed set, a fresh channel, no error and
the lookup goroutine otherwise), the same as with any other CID library. -/
theorem loggableKey_never_fails {Cid : Type} (lib : CidLib Cid) (k : GoString) :
    ∃ v logs, loggableKey lib k = some ([("key", v)], logs) ∧
      (∀ s, tryFormatLoggableKey lib k = some (s, none) → v = s ∧ logs = []) ∧
      (∀ s err, tryFormatLoggableKey lib k = some (s, some err) →
        v = k ∧ logs = [.debug err]) ∧
      (∀ (d : Deps Cid) (ctx : Ctx), ∃ st,
        GetClosestPeers { d with cid := lib } ctx k = some st ∧
        st.effects = logs ++ [.eventBegin ctx "getClosestPeers" [("key", v)]] ∧
        (d.NearestPeers (d.ConvertKey k) d.KValue = [] →
          st.out = none ∧ st.err = some .ErrLookupFailure ∧ st.task = none) ∧
        (d.NearestPeers (d.ConvertKey k) d.KValue ≠ [] →
          st.out = some (Chan.make d.KValue) ∧ st.err = none ∧
          st.task = some (lookupTask d (newClosestPeersQuery d ctx k none) ctx
            (d.NearestPeers (d.ConvertKey k) d.KValue))) ∧
        ∃ st0, GetClosestPeers d ctx k = some st0 ∧
          st.out = st0.out ∧ st.err = st0.err ∧ st.task = st0.task) := by
  have hstart : ∀ (v : GoString) (logs : List Effect),
      loggableKey lib k = some ([("key", v)], logs) →
      ∀ (d : Deps Cid) (ctx : Ctx), ∃ st,
        GetClosestPeers { d with cid := lib } ctx k = some st ∧
        st.effects = logs ++ [.eventBegin ctx "getClosestPeers" [("key", v)]] ∧
        (d.NearestPeers (d.ConvertKey k) d.KValue = [] →
          st.out = none ∧ st.err = some .ErrLookupFailure ∧ st.task = none) ∧
        (d.NearestPeers (d.ConvertKey k) d.KValue ≠ [] →
          st.out = some (Chan.make d.KValue) ∧ st.err = none ∧
          st.task = some (lookupTask d (newClosestPeersQuery d ctx k none) ctx
            (d.NearestPeers (d.ConvertKey k) d.KValue))) ∧
        ∃ st0, GetClosestPeers d ctx k = some st0 ∧
          st.out = st0.out ∧ st.err = st0.err ∧ st.task = st0.task := by
    intro v logs hlk d ctx
    obtain ⟨v1, logs1, hlk1, h⟩ := getClosestPeers_eq { d with cid := lib } ctx k
    obtain ⟨v0, logs0, _, h0⟩ := getClosestPeers_eq d ctx k
    have hsame : ([("key", v1)], logs1) = ([("key", v)], logs) :=
      Option.some.inj (hlk1.symm.trans hlk)
    simp only [Prod.mk.injEq, List.cons.injEq, and_true, true_and] at hsame
    obtain ⟨hv, hl⟩ := hsame
    subst hv
    subst hl
    refine ⟨_, h, ?_, ?_, ?_, _, h0, ?_⟩
    · dsimp only
      split <;> rfl
    · intro he
      have : (d.NearestPeers (d.ConvertKey k) d.KValue).length = 0 := by simp [he]
      dsimp only
      rw [if_pos this]
      exact ⟨rfl, rfl, rfl⟩
    · intro he
      have : ¬ (d.NearestPeers (d.ConvertKey k) d.KValue).length = 0 := by
        simpa [List.length_eq_zero] using he
      dsimp only
      rw [if_neg this]
      exact ⟨rfl, rfl, rfl⟩
    · dsimp only
      split <;> exact ⟨rfl, rfl, rfl⟩
  rcases loggableKey_eq lib k with ⟨s, h1, h2⟩ | ⟨s, err, h1, h2⟩
  · refine ⟨s, [], h2, ?_, ?_, hstart _ _ h2⟩
    · intro s2 h
      rw [h1] at h
      simp at h
      exact ⟨h, rfl⟩
    · intro s2 err h
      rw [h1] at h
      simp at h
  · refine ⟨k, [.debug err], h2, ?_, ?_, hstart _ _ h2⟩
    · intro s2 h
      rw [h1] at h
      simp at h
    · intro s2 err2 h
      rw [h1] at h
      simp at h
      exact ⟨rfl, by rw [h.2]⟩

/-- C7, evaluated on the sample node, whose routing table is not empty: for the
empty key, a key that starts with a slash and is not a path, a path whose CID
part cannot be cast and a well-formed key, the call returns a fresh channel, no
error and a goroutine; the malformed key shows in the debug line and in the
logged map only. -/
theorem loggableKey_never_fails_witness :
    ((GetClosestPeers sampleDeps sampleCtx []).map
        (fun st => (st.out, st.err, st.task.isSome)) =
      some (some (Chan.make 20), none, true)) ∧
    ((GetClosestPeers sampleDeps sampleCtx []).map (fun st => st.effects) =
      some [.debug (.errorf "loggableKey is empty" none),
        .eventBegin sampleCtx "getClosestPeers" [("key", [])]]) ∧
    ((GetClosestPeers sampleDeps sampleCtx (lit "/ab")).map
        (fun st => (st.out, st.err, st.task.isSome)) =
      some (some (Chan.make 20), none, true)) ∧
    ((GetClosestPeers sampleDeps sampleCtx (lit "/ab/c")).map
        (fun st => (st.out, st.err, st.task.isSome)) =
      some (some (Chan.make 20), none, true)) ∧
    ((GetClosestPeers sampleDeps sampleCtx (lit "/ab/cd")).map
        (fun st => (st.out, st.err, st.task.isSome)) =
      some (some (Chan.make 20), none, true)) ∧
    ((GetClosestPeers sampleDeps sampleCtx (lit "/ab/cd")).map (fun st => st.effects) =
      some [.eventBegin sampleCtx "getClosestPeers" [("key", lit "/ab/cdcd")]]) ∧
    ∃ v logs, loggableKey sampleCid (lit "/ab") = some ([("key", v)], logs) ∧
      (∀ s, tryFormatLoggableKey sampleCid (lit "/ab") = some (s, none) → v = s ∧ logs = []) ∧
      (∀ s err, tryFormatLoggableKey sampleCid (lit "/ab") = some (s, some err) →
        v = lit "/ab" ∧ logs = [.debug err]) ∧
      (∀ (d : Deps GoString) (ctx : Ctx), ∃ st,
        GetClosestPeers { d with cid := sampleCid } ctx (lit "/ab") = some st ∧
        st.effects = logs ++ [.eventBegin ctx "getClosestPeers" [("key", v)]] ∧
        (d.NearestPeers (d.ConvertKey (lit "/ab")) d.KValue = [] →
          st.out = none ∧ st.err = some .ErrLookupFailure ∧ st.task = none) ∧
        (d.NearestPeers (d.ConvertKey (lit "/ab")) d.KValue ≠ [] →
          st.out = some (Chan.make d.KValue) ∧ st.err = none ∧
          st.task = some (lookupTask d (newClosestPeersQuery d ctx (lit "/ab") none) ctx
            (d.NearestPeers (d.ConvertKey (lit "/ab")) d.KValue))) ∧
        ∃ st0, GetClosestPeers d ctx (lit "/ab") = some st0 ∧
          st.out = st0.out ∧ st.err = st0.err ∧ st.task = st0.task) :=
  ⟨by decide, by decide, by decide, by decide, by decide, by decide,
   loggableKey_never_fails sampleCid (lit "/ab")⟩

/-- C1: `GetClosestPeers(ctx, key)` returns a non-nil error exactly when the
routing table's `NearestPeers(ConvertKey(key), KValue)` is empty; the error is
then `kb.ErrLookupFailure`, and otherwise the error is nil and a channel is
returned. The error is the same for every other context (cancelled or not),
every other CID library (key formattable or not) and every other behaviour of
`query.Run`. -/
theorem getClosestPeers_error_iff {Cid : Type} (d : Deps Cid) (ctx : Ctx) (key : GoString) :
    ∃ st, GetClosestPeers d ctx key = some st ∧
      (st.err.isSome = true ↔ d.NearestPeers (d.ConvertKey key) d.KValue = []) ∧
      (d.NearestPeers (d.ConvertKey key) d.KValue = [] → st.err = some .ErrLookupFailure) ∧
      (d.NearestPeers (d.ConvertKey key) d.KValue ≠ [] →
        st.err = none ∧ st.out.isSome = true) ∧
      (∀ (ctx2 : Ctx) (lib : CidLib Cid)
          (run : dhtQuery → Ctx → List PeerID → List PeerID × Option GoError),
        ∃ st2, GetClosestPeers { d with cid := lib, Run := run } ctx2 key = some st2 ∧
          st2.err = st.err) := by
  obtain ⟨v, logs, _, h⟩ := getClosestPeers_eq d ctx key
  refine ⟨_, h, ?_, ?_, ?_, ?_⟩
  · split <;> simp_all [List.length_eq_zero]
  · intro he
    simp [he]
  · intro he
    have : ¬ (d.NearestPeers (d.ConvertKey key) d.KValue).length = 0 := by
      simpa [List.length_eq_zero] using he
    simp [this]
  · intro ctx2 lib run
    obtain ⟨v2, logs2, _, h2⟩ := getClosestPeers_eq { d with cid := lib, Run := run } ctx2 key
    refine ⟨_, h2, ?_⟩
    dsimp only
    split <;> rfl

/-- C2, as the code has it: when the routing table returns an empty seed set,
`GetClosestPeers` returns `kb.ErrLookupFailure` together with the nil channel;
no channel is made and no goroutine is started. -/
theorem getClosestPeers_empty_seed_nil_channel {Cid : Type} (d : Deps Cid) (ctx : Ctx)
    (key : GoString) (h : d.NearestPeers (d.ConvertKey key) d.KValue = []) :
    ∃ st, GetClosestPeers d ctx key = some st ∧ st.out = none ∧
      st.err = some .ErrLookupFailure ∧ st.task = none := by
  obtain ⟨v, logs, _, e⟩ := getClosestPeers_eq d ctx key
  refine ⟨_, e, ?_⟩
  simp [h]

/-- C2, evaluated on a node with an empty routing table. -/
theorem getClosestPeers_empty_seed_nil_channel_witness :
    emptyTableDeps.NearestPeers (emptyTableDeps.ConvertKey [0]) emptyTableDeps.KValue = [] ∧
    ∃ st, GetClosestPeers emptyTableDeps sampleCtx [0] = some st ∧ st.out = none ∧
      st.err = some .ErrLookupFailure ∧ st.task = none :=
  ⟨rfl, getClosestPeers_empty_seed_nil_channel emptyTableDeps sampleCtx [0] rfl⟩

/-- C2 as stated fails: on a node with an empty routing table the call returns
the startup error, and what comes with it is not a closed empty channel. -/
theorem getClosestPeers_empty_seed_not_closed_channel :
    emptyTableDeps.NearestPeers (emptyTableDeps.ConvertKey [0]) emptyTableDeps.KValue = [] ∧
    (∃ st, GetClosestPeers emptyTableDeps sampleCtx [0] = some st ∧
      st.err = some .ErrLookupFailure) ∧
    ¬ ∃ st ch, GetClosestPeers emptyTableDeps sampleCtx [0] = some st ∧
      st.out = some ch ∧ ch.closed = true ∧ ch.buf = [] := by
  have e : (GetClosestPeers emptyTableDeps sampleCtx [0]).map (fun st => (st.out, st.err)) =
      some (none, some .ErrLookupFailure) := by decide
  refine ⟨rfl, ?_, ?_⟩
  · cases hg : GetClosestPeers emptyTableDeps sampleCtx [0] with
    | none => simp [hg] at e
    | some st =>
      simp only [hg, Option.map_some', Option.some.injEq, Prod.mk.injEq] at e
      exact ⟨st, rfl, e.2⟩
  · rintro ⟨st, ch, hg, ho, _⟩
    simp only [hg, Option.map_some', Option.some.injEq, Prod.mk.injEq] at e
    rw [ho] at e
    simp at e

/-! ## The single-hop query and the per-peer query step -/

/-- C5: for every peer `src` and key, `GetClosestPeersSingle` makes exactly one
`findPeerSingle` call, to `src` with `peer.ID(key)`, and publishes no query
event. If the call fails with `err` it returns `(nil, err)`; if it succeeds with
`pmes` it returns `(PBPeersToPeerInfos(pmes.GetCloserPeers()), nil)`. -/
theorem getClosestPeersSingle_one_call {Cid : Type} (d : Deps Cid) (ctx : Ctx)
    (src : PeerID) (key : GoString) :
    (GetClosestPeersSingle d ctx src key).2.filter Effect.isFindPeer =
        [.findPeer ctx src (peerIDOfKey key)] ∧
    (GetClosestPeersSingle d ctx src key).2.filter Effect.isPublish = [] ∧
    (∀ pmes err, d.findPeerSingle ctx src (peerIDOfKey key) = (pmes, some err) →
      (GetClosestPeersSingle d ctx src key).1 = (none, some err)) ∧
    (∀ pmes, d.findPeerSingle ctx src (peerIDOfKey key) = (pmes, none) →
      (GetClosestPeersSingle d ctx src key).1 =
        (d.PBPeersToPeerInfos (d.GetCloserPeers pmes), none)) := by
  unfold GetClosestPeersSingle
  rcases hfp : d.findPeerSingle ctx src (peerIDOfKey key) with ⟨pmes, _ | err⟩
  · refine ⟨rfl, rfl, ?_, ?_⟩
    · intro p e h
      simp at h
    · intro p h
      simp only [Prod.mk.injEq, and_true] at h
      rw [h]
  · refine ⟨rfl, rfl, ?_, ?_⟩
    · intro p e h
      simp only [Prod.mk.injEq, Option.some.injEq] at h
      rw [h.2]
    · intro p h
      simp at h

/-- C6, as the code has it: for every peer `p`, the per-peer query step first
publishes, on the parent context of the lookup and not on the context of the
call, a `SendingQuery` event with ID `p`, then makes the remote call. When the
call succeeds with `pmes`, the step returns
`(PBPeersToPeerInfos(pmes.GetCloserPeers()), nil)` and its one further effect is
a `PeerResponse` event with ID `p`, again on the parent context, whose
`Responses` are the peers the step returns. When the call fails with `err`, the
step returns `(nil, err)` and its one further effect is the debug line with
that error: it publishes no `PeerResponse` event. -/
theorem closestPeersStep_events {Cid : Type} (d : Deps Cid) (parent ctx : Ctx)
    (key : GoString) (finish : Option FinishFunc) (p : PeerID) :
    ∃ rest, ((newClosestPeersQuery d parent key finish).qfunc ctx p).2 =
        .publish parent { ID := p, Type_ := .SendingQuery, Responses := none } ::
          .findPeer ctx p (peerIDOfKey key) :: rest ∧
      (∀ pmes, d.findPeerSingle ctx p (peerIDOfKey key) = (pmes, none) →
        ((newClosestPeersQuery d parent key finish).qfunc ctx p).1 =
          (d.PBPeersToPeerInfos (d.GetCloserPeers pmes), none) ∧
        rest = [.publish parent
          ⟨p, .PeerResponse, ((newClosestPeersQuery d parent key finish).qfunc ctx p).fst.fst⟩] ∧
        rest = [.publish parent
          ⟨p, .PeerResponse, d.PBPeersToPeerInfos (d.GetCloserPeers pmes)⟩]) ∧
      (∀ pmes err, d.findPeerSingle ctx p (peerIDOfKey key) = (pmes, some err) →
        ((newClosestPeersQuery d parent key finish).qfunc ctx p).1 = (none, some err) ∧
        rest = [.debugf "error getting closer peers: %s" err] ∧
        ∀ e ∈ rest, e.isPublish = false) := by
  simp only [newClosestPeersQuery, closestPeersStep]
  rcases hfp : d.findPeerSingle ctx p (peerIDOfKey key) with ⟨pmes, _ | err⟩
  · refine ⟨_, rfl, ?_, ?_⟩
    · intro pm h
      simp only [Prod.mk.injEq, and_true] at h
      subst h
      exact ⟨rfl, rfl, rfl⟩
    · intro _ e h
      simp at h
  · refine ⟨_, rfl, ?_, ?_⟩
    · intro _ h
      simp at h
    · intro _ e h
      simp only [Prod.mk.injEq, Option.some.injEq] at h
      obtain ⟨_, he⟩ := h
      subst he
      refine ⟨rfl, rfl, ?_⟩
      intro x hx
      simp only [List.mem_singleton] at hx
      subst hx
      rfl

/-- C6 as amended, evaluated on the sample node with a call context that
differs from the parent: the reachable peer `5` and the unreachable peer `9`. -/
theorem closestPeersStep_events_witness :
    ((newClosestPeersQuery sampleDeps sampleCtx [0] none).qfunc callCtx [5] =
      ((some [{ ID := [2], Addrs := [] }], none),
       [.publish sampleCtx { ID := [5], Type_ := .SendingQuery, Responses := none },
        .findPeer callCtx [5] [0],
        .publish sampleCtx ⟨[5], .PeerResponse, some [{ ID := [2], Addrs := [] }]⟩])) ∧
    ((newClosestPeersQuery sampleDeps sampleCtx [0] none).qfunc callCtx [9] =
      ((none, some (.remote 3)),
       [.publish sampleCtx { ID := [9], Type_ := .SendingQuery, Responses := none },
        .findPeer callCtx [9] [0],
        .debugf "error getting closer peers: %s" (.remote 3)])) ∧
    ∃ rest, ((newClosestPeersQuery sampleDeps sampleCtx [0] none).qfunc callCtx [9]).2 =
        .publish sampleCtx { ID := [9], Type_ := .SendingQuery, Responses := none } ::
          .findPeer callCtx [9] (peerIDOfKey [0]) :: rest ∧
      (∀ pmes, sampleDeps.findPeerSingle callCtx [9] (peerIDOfKey [0]) = (pmes, none) →
        ((newClosestPeersQuery sampleDeps sampleCtx [0] none).qfunc callCtx [9]).1 =
          (sampleDeps.PBPeersToPeerInfos (sampleDeps.GetCloserPeers pmes), none) ∧
        rest = [.publish sampleCtx
          ⟨[9], .PeerResponse,
            ((newClosestPeersQuery sampleDeps sampleCtx [0] none).qfunc callCtx [9]).fst.fst⟩] ∧
        rest = [.publish sampleCtx
          ⟨[9], .PeerResponse, sampleDeps.PBPeersToPeerInfos (sampleDeps.GetCloserPeers pmes)⟩]) ∧
      (∀ pmes err, sampleDeps.findPeerSingle callCtx [9] (peerIDOfKey [0]) = (pmes, some err) →
        ((newClosestPeersQuery sampleDeps sampleCtx [0] none).qfunc callCtx [9]).1 =
          (none, some err) ∧
        rest = [.debugf "error getting closer peers: %s" err] ∧
        ∀ e ∈ rest, e.isPublish = false) :=
  ⟨by decide, by decide, closestPeersStep_events sampleDeps sampleCtx callCtx [0] none [9]⟩

/-- C6 as stated fails: the sample peer `9` is unreachable, and the step run for
it (on a call context that differs from the parent) publishes the
`SendingQuery` event and no `PeerResponse` event on any context. -/
theorem closestPeersStep_no_response_event_on_failure :
    (sampleDeps.findPeerSingle callCtx [9] (peerIDOfKey [0])).2 = some (.remote 3) ∧
    ((newClosestPeersQuery sampleDeps sampleCtx [0] none).qfunc callCtx [9]).2 =
      [.publish sampleCtx { ID := [9], Type_ := .SendingQuery, Responses := none },
       .findPeer callCtx [9] [0],
       .debugf "error getting closer peers: %s" (.remote 3)] ∧
    ¬ ∃ c r, Effect.publish c { ID := [9], Type_ := .PeerResponse, Responses := r } ∈
      ((newClosestPeersQuery sampleDeps sampleCtx [0] none).qfunc callCtx [9]).2 := by
  refine ⟨by decide, by decide, ?_⟩
  rintro ⟨c, r, h⟩
  have e : ((newClosestPeersQuery sampleDeps sampleCtx [0] none).qfunc callCtx [9]).2 =
      [.publish sampleCtx { ID := [9], Type_ := .SendingQuery, Responses := none },
       .findPeer callCtx [9] [0],
       .debugf "error getting closer peers: %s" (.remote 3)] := by decide
  rw [e] at h
  simp at h

/-- C10: for every peer `p`, key and contexts, the per-peer query step built by
`newClosestPeersQuery` returns the same `(peers, error)` pair as
`GetClosestPeersSingle(ctx, p, key)`, and apart from the query events it
publishes it has the same effects. -/
theorem closestPeersStep_eq_single {Cid : Type} (d : Deps Cid) (parent ctx : Ctx)
    (key : GoString) (finish : Option FinishFunc) (p : PeerID) :
    ((newClosestPeersQuery d parent key finish).qfunc ctx p).1 =
        (GetClosestPeersSingle d ctx p key).1 ∧
    ((newClosestPeersQuery d parent key finish).qfunc ctx p).2.filter
        (fun e => !e.isPublish) = (GetClosestPeersSingle d ctx p key).2 := by
  simp only [newClosestPeersQuery, closestPeersStep, GetClosestPeersSingle]
  rcases d.findPeerSingle ctx p (peerIDOfKey key) with ⟨pmes, _ | err⟩
  · exact ⟨rfl, rfl⟩
  · exact ⟨rfl, rfl⟩

/-! ## The result channel -/

theorem pendingSends_append (a b : List Op) :
    pendingSends (a ++ b) = pendingSends a ++ pendingSends b := by
  induction a with
  | nil => rfl
  | cons op rest ih => cases op <;> simp [pendingSends, ih]

theorem pendingSends_map_send (res : List PeerID) : pendingSends (res.map Op.send) = res := by
  induction res with
  | nil => rfl
  | cons p rest ih => simp [pendingSends, ih]

theorem exec_append (a b : List Actor) (s : Sys) : exec (a ++ b) s = exec b (exec a s) := by
  induction a generalizing s with
  | nil => rfl
  | cons x rest ih => simp [exec, ih]

/-- The operations of the goroutine: the sends of `res`, in order, between an
optional log line and the two deferred calls. -/
theorem lookupTask_eq {Cid : Type} (d : Deps Cid) (query : dhtQuery) (ctx : Ctx)
    (tablepeers : List PeerID) :
    ∃ logged : List Op, pendingSends logged = [] ∧ Op.close ∉ logged ∧
      lookupTask d query ctx tablepeers =
        logged ++ (d.Run query ctx tablepeers).1.map Op.send ++ [.eventDone, .close] := by
  unfold lookupTask
  rcases d.Run query ctx tablepeers with ⟨res, _ | e⟩
  · exact ⟨[], rfl, by simp, rfl⟩
  · exact ⟨[.debugf "closestPeers query run error: %s" e], rfl, by simp, rfl⟩

theorem inv_init {Cid : Type} (d : Deps Cid) (query : dhtQuery) (ctx : Ctx)
    (tablepeers : List PeerID) (n : Nat) :
    Sys.Inv (d.Run query ctx tablepeers).1
      (Sys.init (Chan.make n) (lookupTask d query ctx tablepeers)) := by
  obtain ⟨logged, h1, h2, h3⟩ := lookupTask_eq d query ctx tablepeers
  refine ⟨rfl, ?_, Or.inl ⟨rfl, rfl, rfl, ?_⟩, ?_⟩
  · simp [Sys.init, Chan.make, h3, pendingSends_append, pendingSends_map_send, h1, pendingSends]
  · refine ⟨logged ++ (d.Run query ctx tablepeers).1.map Op.send ++ [.eventDone], ?_, ?_⟩
    · simp [Sys.init, h3]
    · simp [h2]
  · intro h
    simp [Sys.init] at h

/-- A program that ends in its only `close` and starts with another operation. -/
theorem body_of_cons (op : Op) (rest body : List Op) (h : op :: rest = body ++ [Op.close])
    (hb : Op.close ∉ body) (hop : op ≠ Op.close) :
    ∃ body2, rest = body2 ++ [Op.close] ∧ Op.close ∉ body2 := by
  cases body with
  | nil =>
    simp at h
    exact absurd h.1 hop
  | cons b body2 =>
    simp only [List.cons_append, List.cons.injEq] at h
    exact ⟨body2, h.2, fun hm => hb (List.mem_cons_of_mem _ hm)⟩

/-- A program that ends in its only `close` and starts with `close` is that
`close` alone. -/
theorem rest_of_close (rest body : List Op) (h : Op.close :: rest = body ++ [Op.close])
    (hb : Op.close ∉ body) : rest = [] := by
  cases body with
  | nil => simpa using h
  | cons b body2 =>
    simp only [List.cons_append, List.cons.injEq] at h
    exact absurd (by simp [← h.1]) hb

theorem inv_producer (res : List PeerID) (s t : Sys) (hi : Sys.Inv res s)
    (hs : producerStep s = some t) : Sys.Inv res t ∧ t.measure < s.measure := by
  obtain ⟨hp, hd, hc, hw⟩ := hi
  unfold producerStep at hs
  rw [hp] at hs
  simp only [Bool.false_eq_true, if_false] at hs
  rcases hc with ⟨hopen, hcl, hsaw, body, hbody, hnb⟩ | ⟨_, _, hnil⟩
  · rw [hopen] at hs
    simp only [Bool.false_eq_true, if_false] at hs
    split at hs
    · exact absurd hs (by simp)
    · rename_i f e rest hprog
      cases hs
      rw [hprog] at hbody hd
      obtain ⟨b2, hb2, hn2⟩ := body_of_cons _ _ _ hbody hnb (by simp)
      refine ⟨⟨rfl, ?_, Or.inl ⟨hopen, hcl, hsaw, b2, hb2, hn2⟩, hw⟩, ?_⟩
      · simpa [pendingSends] using hd
      · simp [Sys.measure, hprog]
    · rename_i rest hprog
      cases hs
      rw [hprog] at hbody hd
      obtain ⟨b2, hb2, hn2⟩ := body_of_cons _ _ _ hbody hnb (by simp)
      refine ⟨⟨rfl, ?_, Or.inl ⟨hopen, hcl, hsaw, b2, hb2, hn2⟩, hw⟩, ?_⟩
      · simpa [pendingSends] using hd
      · simp [Sys.measure, hprog]
    · rename_i p rest hprog
      split at hs
      · cases hs
        rw [hprog] at hbody hd
        obtain ⟨b2, hb2, hn2⟩ := body_of_cons _ _ _ hbody hnb (by simp)
        refine ⟨⟨rfl, ?_, Or.inl ⟨rfl, hcl, hsaw, b2, hb2, hn2⟩, ?_⟩, ?_⟩
        · simpa [pendingSends] using hd
        · intro h
          rw [hsaw] at h
          exact absurd h (by simp)
        · simp [Sys.measure, hprog]
          omega
      · exact absurd hs (by simp)
    · rename_i rest hprog
      cases hs
      rw [hprog] at hbody hd
      have hr := rest_of_close _ _ hbody hnb
      refine ⟨⟨rfl, ?_, Or.inr ⟨rfl, by simp [hcl], hr⟩, hw⟩, ?_⟩
      · simpa [pendingSends, hr] using hd
      · simp [Sys.measure, hprog]
  · rw [hnil] at hs
    exact absurd hs (by simp)

theorem inv_consumer (res : List PeerID) (s t : Sys) (hi : Sys.Inv res s)
    (hs : consumerStep s = some t) :
    Sys.Inv res t ∧ (s.sawClose = true → t = s) ∧
      (s.sawClose = false → t.sawClose = true ∨ t.measure < s.measure) := by
  obtain ⟨hp, hd, hc, hw⟩ := hi
  unfold consumerStep at hs
  rw [hp] at hs
  simp only [Bool.false_eq_true, if_false] at hs
  split at hs
  · rename_i v rest hbuf
    cases hs
    have hsaw : s.sawClose = false := by
      cases h : s.sawClose with
      | false => rfl
      | true => rw [hw h] at hbuf; exact absurd hbuf (by simp)
    refine ⟨⟨rfl, ?_, ?_, ?_⟩, ?_, ?_⟩
    · rw [hbuf] at hd
      simpa using hd
    · exact hc
    · intro h
      rw [hsaw] at h
      exact absurd h (by simp)
    · intro h
      rw [hsaw] at h
      exact absurd h (by simp)
    · intro _
      exact Or.inr (by simp [Sys.measure, hbuf])
  · rename_i hbuf
    split at hs
    · rename_i hclosed
      cases hs
      refine ⟨⟨rfl, hd, ?_, fun _ => hbuf⟩, ?_, fun _ => Or.inl rfl⟩
      · rcases hc with ⟨hopen, _⟩ | h2
        · rw [hopen] at hclosed
          exact absurd hclosed (by simp)
        · exact Or.inr h2
      · intro h
        cases s
        simp_all
    · rename_i hopen
      have hopen2 : s.chan.closed = false := by simpa using hopen
      rcases hc with ⟨_, hcl, hsaw, body, hbody, hnb⟩ | ⟨h2, _⟩
      · split at hs
        · rename_i p rest hprog
          cases hs
          rw [hprog] at hbody hd
          obtain ⟨b2, hb2, hn2⟩ := body_of_cons _ _ _ hbody hnb (by simp)
          refine ⟨⟨rfl, ?_, Or.inl ⟨hopen2, hcl, hsaw, b2, hb2, hn2⟩, fun _ => hbuf⟩, ?_, ?_⟩
          · simpa [pendingSends, hbuf] using hd
          · intro h
            rw [hsaw] at h
            exact absurd h (by simp)
          · intro _
            exact Or.inr (by simp [Sys.measure, hprog])
        · exact absurd hs (by simp)
      · rw [h2] at hopen
        exact absurd rfl hopen

/-- Each step of either party keeps the invariant. -/
theorem inv_step (res : List PeerID) (a : Actor) (s : Sys) (hi : Sys.Inv res s) :
    Sys.Inv res ((stepActor a s).getD s) := by
  cases h : stepActor a s with
  | none => simpa using hi
  | some t =>
    cases a with
    | producer => exact (inv_producer res s t hi h).1
    | consumer => exact (inv_consumer res s t hi h).1

theorem inv_exec (res : List PeerID) (sch : List Actor) (s : Sys) (hi : Sys.Inv res s) :
    Sys.Inv res (exec sch s) := by
  induction sch generalizing s with
  | nil => exact hi
  | cons a rest ih => exact ih _ (inv_step res a s hi)

/-- Once the caller has seen the close, no step changes the state. -/
theorem exec_after_close (res : List PeerID) (sch : List Actor) (s : Sys) (hi : Sys.Inv res s)
    (hsaw : s.sawClose = true) : exec sch s = s := by
  induction sch with
  | nil => rfl
  | cons a rest ih =>
    have hstep : (stepActor a s).getD s = s := by
      cases h : stepActor a s with
      | none => rfl
      | some t =>
        cases a with
        | producer =>
          obtain ⟨_, _, hc, _⟩ := hi
          rcases hc with ⟨_, _, hf, _⟩ | ⟨_, _, hnil⟩
          · rw [hsaw] at hf
            exact absurd hf (by simp)
          · simp [stepActor, producerStep, hnil] at h
        | consumer => exact (inv_consumer res s t hi h).2.1 hsaw
    simp only [exec, hstep]
    exact ih

/-- From every state of a started lookup the caller can be brought to see the
close: there is no deadlock, whatever the capacity of the channel. -/
theorem completes (res : List PeerID) (n : Nat) (s : Sys) (hi : Sys.Inv res s)
    (hm : s.measure ≤ n) : ∃ sch, (exec sch s).sawClose = true := by
  induction n generalizing s with
  | zero =>
    have hprog : s.prog = [] := by
      have : s.prog.length = 0 := by unfold Sys.measure at hm; omega
      exact List.length_eq_zero.mp this
    have hbuf : s.chan.buf = [] := by
      have : s.chan.buf.length = 0 := by unfold Sys.measure at hm; omega
      exact List.length_eq_zero.mp this
    obtain ⟨hp, _, hc, _⟩ := hi
    rcases hc with ⟨_, _, _, body, hbody, _⟩ | ⟨hclosed, _, _⟩
    · rw [hprog] at hbody
      simp at hbody
    · exact ⟨[.consumer], by simp [exec, stepActor, consumerStep, hp, hbuf, hclosed]⟩
  | succ n ih =>
    cases hsaw : s.sawClose with
    | true => exact ⟨[], hsaw⟩
    | false =>
      have key : ∃ a t, stepActor a s = some t ∧ Sys.Inv res t ∧
          (t.sawClose = true ∨ t.measure < s.measure) := by
        have viaConsumer : (∃ t, consumerStep s = some t) → ∃ a t, stepActor a s = some t ∧
            Sys.Inv res t ∧ (t.sawClose = true ∨ t.measure < s.measure) := by
          rintro ⟨t, hstep⟩
          obtain ⟨h1, _, h3⟩ := inv_consumer res s t hi hstep
          exact ⟨.consumer, t, hstep, h1, h3 hsaw⟩
        have viaProducer : (∃ t, producerStep s = some t) → ∃ a t, stepActor a s = some t ∧
            Sys.Inv res t ∧ (t.sawClose = true ∨ t.measure < s.measure) := by
          rintro ⟨t, hstep⟩
          obtain ⟨h1, h2⟩ := inv_producer res s t hi hstep
          exact ⟨.producer, t, hstep, h1, Or.inr h2⟩
        obtain ⟨hp, _, hc, _⟩ := hi
        cases hbuf : s.chan.buf with
        | cons v rest => exact viaConsumer (by simp [consumerStep, hp, hbuf])
        | nil =>
          rcases hc with ⟨hopen, _, _, body, hbody, _⟩ | ⟨hclosed, _, _⟩
          · cases hprog : s.prog with
            | nil =>
              rw [hprog] at hbody
              simp at hbody
            | cons op rest =>
              cases op with
              | send p => exact viaConsumer (by simp [consumerStep, hp, hbuf, hopen, hprog])
              | debugf f e => exact viaProducer (by simp [producerStep, hp, hprog])
              | eventDone => exact viaProducer (by simp [producerStep, hp, hprog])
              | close => exact viaProducer (by simp [producerStep, hp, hprog, hopen])
          · exact viaConsumer (by simp [consumerStep, hp, hbuf, hclosed])
      obtain ⟨a, t, hstep, hinv, hprog⟩ := key
      rcases hprog with hdone | hlt
      · exact ⟨[a], by simp [exec, hstep, hdone]⟩
      · obtain ⟨sch, hsch⟩ := ih t hinv (by omega)
        exact ⟨a :: sch, by simp [exec, hstep, hsch]⟩

/-- C3: for every non-empty seed set, `GetClosestPeers` returns a channel and
starts a goroutine such that, under every interleaving of the goroutine and the
reading caller: nothing panics, the channel is closed at most once, and the
values received, buffered and still to be sent are, in order, the list returned
by `query.Run(ctx, tablepeers)`, whether or not `Run` also returned an error.
When the caller sees the close it has received exactly that list, the channel
has been closed exactly once, and no later step changes anything. From every
reachable state a caller that keeps reading gets to see the close. -/
theorem getClosestPeers_stream_delivers_run_result {Cid : Type} (d : Deps Cid) (ctx : Ctx)
    (key : GoString) (h : d.NearestPeers (d.ConvertKey key) d.KValue ≠ []) :
    ∃ st ch ops, GetClosestPeers d ctx key = some st ∧ st.err = none ∧
      st.out = some ch ∧ st.task = some ops ∧
      (∀ sch,
        (exec sch (Sys.init ch ops)).panicked = false ∧
        (exec sch (Sys.init ch ops)).closes ≤ 1 ∧
        (exec sch (Sys.init ch ops)).delivered ++ (exec sch (Sys.init ch ops)).chan.buf ++
            pendingSends (exec sch (Sys.init ch ops)).prog =
          (d.Run (newClosestPeersQuery d ctx key none) ctx
            (d.NearestPeers (d.ConvertKey key) d.KValue)).1 ∧
        ((exec sch (Sys.init ch ops)).sawClose = true →
          (exec sch (Sys.init ch ops)).delivered =
            (d.Run (newClosestPeersQuery d ctx key none) ctx
              (d.NearestPeers (d.ConvertKey key) d.KValue)).1 ∧
          (exec sch (Sys.init ch ops)).closes = 1 ∧
          (exec sch (Sys.init ch ops)).chan.closed = true ∧
          ∀ more, exec (sch ++ more) (Sys.init ch ops) = exec sch (Sys.init ch ops))) ∧
      (∀ sch, ∃ more, (exec (sch ++ more) (Sys.init ch ops)).sawClose = true) := by
  obtain ⟨v, logs, _, e⟩ := getClosestPeers_eq d ctx key
  have hne : ¬ (d.NearestPeers (d.ConvertKey key) d.KValue).length = 0 := by
    simpa [List.length_eq_zero] using h
  rw [if_neg hne] at e
  have hinit := inv_init d (newClosestPeersQuery d ctx key none) ctx
    (d.NearestPeers (d.ConvertKey key) d.KValue) d.KValue
  refine ⟨_, _, _, e, rfl, rfl, rfl, ?_, ?_⟩
  · intro sch
    have hinv := inv_exec _ sch _ hinit
    obtain ⟨hp, hd, hc, hw⟩ := hinv
    refine ⟨hp, ?_, hd, ?_⟩
    · rcases hc with ⟨_, h0, _⟩ | ⟨_, h1, _⟩
      · omega
      · omega
    · intro hsaw
      rcases hc with ⟨_, _, hf, _⟩ | ⟨hclosed, h1, hnil⟩
      · rw [hsaw] at hf
        exact absurd hf (by simp)
      · refine ⟨?_, h1, hclosed, ?_⟩
        · rw [hw hsaw, hnil] at hd
          simpa [pendingSends] using hd
        · intro more
          rw [exec_append]
          exact exec_after_close _ more _ (inv_exec _ sch _ hinit) hsaw
  · intro sch
    obtain ⟨more, hm⟩ := completes _ _ _ (inv_exec _ sch _ hinit) (le_refl _)
    exact ⟨more, by rw [exec_append]; exact hm⟩

/-- C3, evaluated: the engine of `failingRunDeps` returns the peers `1` and `2`
with an error; the caller of `GetClosestPeers` receives `1` and `2` and then
the close, on a channel of capacity one. -/
theorem getClosestPeers_stream_delivers_run_result_witness :
    failingRunDeps.NearestPeers (failingRunDeps.ConvertKey [0]) failingRunDeps.KValue ≠ [] ∧
    (failingRunDeps.Run (newClosestPeersQuery failingRunDeps sampleCtx [0] none) sampleCtx
      [[12], [5], [9]]) = ([[1], [2]], some (.remote 7)) ∧
    (GetClosestPeers failingRunDeps sampleCtx [0]).map (fun st =>
      (st.out.map (fun ch => (exec [.producer, .producer, .producer, .consumer, .producer,
        .producer, .producer, .consumer, .consumer] (Sys.init ch (st.task.getD []))).delivered)))
      = some (some [[1], [2]]) ∧
    ∃ st ch ops, GetClosestPeers failingRunDeps sampleCtx [0] = some st ∧ st.err = none ∧
      st.out = some ch ∧ st.task = some ops ∧
      (∀ sch,
        (exec sch (Sys.init ch ops)).panicked = false ∧
        (exec sch (Sys.init ch ops)).closes ≤ 1 ∧
        (exec sch (Sys.init ch ops)).delivered ++ (exec sch (Sys.init ch ops)).chan.buf ++
            pendingSends (exec sch (Sys.init ch ops)).prog =
          (failingRunDeps.Run (newClosestPeersQuery failingRunDeps sampleCtx [0] none) sampleCtx
            (failingRunDeps.NearestPeers (failingRunDeps.ConvertKey [0])
              failingRunDeps.KValue)).1 ∧
        ((exec sch (Sys.init ch ops)).sawClose = true →
          (exec sch (Sys.init ch ops)).delivered =
            (failingRunDeps.Run (newClosestPeersQuery failingRunDeps sampleCtx [0] none)
              sampleCtx (failingRunDeps.NearestPeers (failingRunDeps.ConvertKey [0])
                failingRunDeps.KValue)).1 ∧
          (exec sch (Sys.init ch ops)).closes = 1 ∧
          (exec sch (Sys.init ch ops)).chan.closed = true ∧
          ∀ more, exec (sch ++ more) (Sys.init ch ops) = exec sch (Sys.init ch ops))) ∧
      (∀ sch, ∃ more, (exec (sch ++ more) (Sys.init ch ops)).sawClose = true) :=
  ⟨by decide, by decide, by decide,
   getClosestPeers_stream_delivers_run_result failingRunDeps sampleCtx [0] (by decide)⟩

/-! ## The specified query engine -/

theorem idLe_total (a b : PeerID) : idLe a b = true ∨ idLe b a = true := by
  induction a generalizing b with
  | nil => exact Or.inl (by simp [idLe])
  | cons x xs ih =>
    cases b with
    | nil => exact Or.inr (by simp [idLe])
    | cons y ys =>
      rcases lt_trichotomy x y with h | h | h
      · exact Or.inl (by simp [idLe, h])
      · subst h
        rcases ih ys with h2 | h2
        · exact Or.inl (by simp [idLe, h2])
        · exact Or.inr (by simp [idLe, h2])
      · exact Or.inr (by simp [idLe, h])

theorem idLe_trans (a b c : PeerID) (h1 : idLe a b = true) (h2 : idLe b c = true) :
    idLe a c = true := by
  induction a generalizing b c with
  | nil => simp [idLe]
  | cons x xs ih =>
    cases b with
    | nil => simp [idLe] at h1
    | cons y ys =>
      cases c with
      | nil => simp [idLe] at h2
      | cons z zs =>
        simp only [idLe, Bool.or_eq_true, decide_eq_true_eq, Bool.and_eq_true] at h1 h2 ⊢
        rcases h1 with h1 | ⟨e1, h1⟩
        · rcases h2 with h2 | ⟨e2, _⟩
          · exact Or.inl (lt_trans h1 h2)
          · exact Or.inl (e2 ▸ h1)
        · rcases h2 with h2 | ⟨e2, h2⟩
          · exact Or.inl (e1 ▸ h2)
          · exact Or.inr ⟨e1.trans e2, ih ys zs h1 h2⟩

theorem closer_total (key : GoString) : IsTotal ShortlistEntry (Closer key) :=
  ⟨fun a b => by
    unfold Closer
    rcases lt_trichotomy (distance a.peer key) (distance b.peer key) with h | h | h
    · exact Or.inl (Or.inl h)
    · rcases idLe_total a.peer b.peer with h2 | h2
      · exact Or.inl (Or.inr ⟨h, h2⟩)
      · exact Or.inr (Or.inr ⟨h.symm, h2⟩)
    · exact Or.inr (Or.inl h)⟩

theorem closer_trans (key : GoString) : IsTrans ShortlistEntry (Closer key) :=
  ⟨fun a b c h1 h2 => by
    unfold Closer at *
    rcases h1 with h1 | ⟨e1, h1⟩
    · rcases h2 with h2 | ⟨e2, _⟩
      · exact Or.inl (lt_trans h1 h2)
      · exact Or.inl (e2 ▸ h1)
    · rcases h2 with h2 | ⟨e2, h2⟩
      · exact Or.inl (e1 ▸ h2)
      · exact Or.inr ⟨e1.trans e2, idLe_trans _ _ _ h1 h2⟩⟩

theorem ranked_take_sorted (key : GoString) (k : Nat) (es : List ShortlistEntry) :
    (((ranked key es).take k).map (fun e => e.peer)).Pairwise
      (fun p q => distance p key ≤ distance q key) := by
  have h1 : List.Sorted (Closer key) (ranked key es) :=
    @List.sorted_insertionSort _ (Closer key) _ (closer_total key) (closer_trans key) es
  have h2 : List.Pairwise (Closer key) ((ranked key es).take k) :=
    List.Pairwise.sublist (List.take_sublist _ _) h1
  rw [List.pairwise_map]
  refine List.Pairwise.imp ?_ h2
  intro a b h
  rcases h with h | ⟨h, _⟩
  · exact le_of_lt h
  · exact le_of_eq h

theorem snapshotClosest_bounded_sorted (key : GoString) (k : Nat) (q : QueryState) :
    (snapshotClosest key k q).length ≤ k ∧
    ((snapshotClosest key k q).map (fun e => e.peer)).Pairwise
      (fun p q => distance p key ≤ distance q key) := by
  unfold snapshotClosest
  dsimp only
  split
  · exact ⟨by simp, ranked_take_sorted _ _ _⟩
  · exact ⟨by simp, ranked_take_sorted _ _ _⟩


/-- Merging the outcomes of a batch leaves the round watermark as it is. -/
theorem merge_watermark (self : PeerID) (query : dhtQuery) (ctx : Ctx) (batch : List PeerID)
    (q : QueryState) :
    (batch.foldl (fun st p =>
      match (query.qfunc ctx p).1 with
      | (peers, none) => recordSuccess self st p (peers.getD [])
      | (_, some _) => recordFailure st p) q).watermark = q.watermark := by
  induction batch generalizing q with
  | nil => rfl
  | cons p rest ih =>
    simp only [List.foldl_cons]
    rw [ih]
    rcases (query.qfunc ctx p).1 with ⟨peers, _ | e⟩ <;> rfl

/-- The watermark of a round is the closest distance known when it started. -/
theorem round_watermark (self : PeerID) (alpha : Nat) (query : dhtQuery) (ctx : Ctx)
    (q : QueryState) :
    (round self alpha query ctx q).watermark = closestDistance query.key q.entries := by
  unfold round
  dsimp only
  rw [merge_watermark]
  rfl

/-- The round loop terminates within any budget above the closest distance
known at its start. -/
theorem rounds_terminate (self : PeerID) (alpha : Nat) (query : dhtQuery) (ctx : Ctx)
    (fuel : Nat) (q : QueryState) (h : closestDistance query.key q.entries < fuel) :
    ∃ final, rounds self alpha query ctx fuel q = some final := by
  induction fuel generalizing q with
  | zero => omega
  | succ n ih =>
    unfold rounds
    split
    · exact ⟨_, rfl⟩
    · dsimp only
      split
      · exact ⟨_, rfl⟩
      · rename_i hcont
        have hlt : closestDistance query.key (round self alpha query ctx q).entries <
            (round self alpha query ctx q).watermark := by
          by_contra hx
          exact hcont (Or.inr hx)
        rw [round_watermark] at hlt
        exact ih _ (by omega)

/-- The answer of the specified engine once its rounds have ended. -/
theorem specRun_eq (self : PeerID) (alpha K : Nat) (query : dhtQuery) (ctx : Ctx)
    (peers : List PeerID) (hne : ¬ peers.length = 0) (final : QueryState)
    (hfinal : rounds self alpha query ctx
      (closestDistance query.key (seed peers).entries + 1) (seed peers) = some final) :
    specRun self alpha K query ctx peers =
      ((snapshotClosest query.key K final).map (fun e => e.peer), none) := by
  unfold specRun
  rw [if_neg hne]
  dsimp only
  rw [hfinal]

/-- C4: for every lookup started by `GetClosestPeers` with a non-empty seed set
and run by the specified query engine with `K = KValue`, the engine terminates,
the channel has capacity `KValue`, and the peers the goroutine sends on it, the
final `snapshotClosest(K)`, are at most `KValue` and in order of non-decreasing
XOR distance to the target key. -/
theorem getClosestPeers_result_bounded_sorted {Cid : Type} (d : Deps Cid) (self : PeerID)
    (alpha : Nat) (ctx : Ctx) (key : GoString)
    (h : d.NearestPeers (d.ConvertKey key) d.KValue ≠ []) :
    ∃ st ch ops final,
      GetClosestPeers { d with Run := specRun self alpha d.KValue } ctx key = some st ∧
      st.out = some ch ∧ st.task = some ops ∧ ch.cap = d.KValue ∧
      rounds self alpha (newClosestPeersQuery { d with Run := specRun self alpha d.KValue }
          ctx key none) ctx
        (closestDistance key (seed (d.NearestPeers (d.ConvertKey key) d.KValue)).entries + 1)
        (seed (d.NearestPeers (d.ConvertKey key) d.KValue)) = some final ∧
      pendingSends ops = (snapshotClosest key d.KValue final).map (fun e => e.peer) ∧
      (pendingSends ops).length ≤ d.KValue ∧
      (pendingSends ops).Pairwise (fun p q => distance p key ≤ distance q key) := by
  obtain ⟨v, logs, _, e⟩ :=
    getClosestPeers_eq { d with Run := specRun self alpha d.KValue } ctx key
  have hne : ¬ (d.NearestPeers (d.ConvertKey key) d.KValue).length = 0 := by
    simpa [List.length_eq_zero] using h
  dsimp only at e
  rw [if_neg hne] at e
  obtain ⟨final, hfinal⟩ := rounds_terminate self alpha
    (newClosestPeersQuery { d with Run := specRun self alpha d.KValue } ctx key none) ctx
    (closestDistance key (seed (d.NearestPeers (d.ConvertKey key) d.KValue)).entries + 1)
    (seed (d.NearestPeers (d.ConvertKey key) d.KValue)) (Nat.lt_succ_self _)
  have hrun : ({ d with Run := specRun self alpha d.KValue } : Deps Cid).Run
      (newClosestPeersQuery { d with Run := specRun self alpha d.KValue } ctx key none) ctx
      (d.NearestPeers (d.ConvertKey key) d.KValue) =
      ((snapshotClosest key d.KValue final).map (fun e => e.peer), none) :=
    specRun_eq self alpha d.KValue _ ctx _ hne final hfinal
  have hops : pendingSends (lookupTask { d with Run := specRun self alpha d.KValue }
      (newClosestPeersQuery { d with Run := specRun self alpha d.KValue } ctx key none) ctx
      (d.NearestPeers (d.ConvertKey key) d.KValue)) =
      (snapshotClosest key d.KValue final).map (fun e => e.peer) := by
    obtain ⟨logged, h1, _, h3⟩ := lookupTask_eq { d with Run := specRun self alpha d.KValue }
      (newClosestPeersQuery { d with Run := specRun self alpha d.KValue } ctx key none) ctx
      (d.NearestPeers (d.ConvertKey key) d.KValue)
    rw [h3, pendingSends_append, pendingSends_append, h1, pendingSends_map_send, hrun]
    simp [pendingSends]
  obtain ⟨hlen, hsorted⟩ := snapshotClosest_bounded_sorted key d.KValue final
  refine ⟨_, _, _, final, e, rfl, rfl, rfl, hfinal, hops, ?_, ?_⟩
  · rw [hops]
    simpa using hlen
  · rw [hops]
    exact hsorted

/-- C4, evaluated on the sample node: seeds `12`, `5`, `9`, of which `5` reports
the closer peer `2`; the goroutine sends `2`, `5`, `9`, `12` on a channel of
capacity 20. -/
theorem getClosestPeers_result_bounded_sorted_witness :
    sampleDeps.NearestPeers (sampleDeps.ConvertKey [0]) sampleDeps.KValue ≠ [] ∧
    (GetClosestPeers { sampleDeps with Run := specRun [77] 3 sampleDeps.KValue } sampleCtx
      [0]).map (fun st => (st.task.map pendingSends, st.out.map (fun ch => ch.cap))) =
      some (some [[2], [5], [9], [12]], some 20) ∧
    ∃ st ch ops final,
      GetClosestPeers { sampleDeps with Run := specRun [77] 3 sampleDeps.KValue } sampleCtx [0] =
        some st ∧
      st.out = some ch ∧ st.task = some ops ∧ ch.cap = sampleDeps.KValue ∧
      rounds [77] 3 (newClosestPeersQuery
          { sampleDeps with Run := specRun [77] 3 sampleDeps.KValue } sampleCtx [0] none) sampleCtx
        (closestDistance [0] (seed (sampleDeps.NearestPeers (sampleDeps.ConvertKey [0])
          sampleDeps.KValue)).entries + 1)
        (seed (sampleDeps.NearestPeers (sampleDeps.ConvertKey [0]) sampleDeps.KValue)) =
          some final ∧
      pendingSends ops = (snapshotClosest [0] sampleDeps.KValue final).map (fun e => e.peer) ∧
      (pendingSends ops).length ≤ sampleDeps.KValue ∧
      (pendingSends ops).Pairwise (fun p q => distance p [0] ≤ distance q [0]) :=
  ⟨by decide, by decide,
   getClosestPeers_result_bounded_sorted sampleDeps [77] 3 sampleCtx [0] (by decide)⟩

/-! ## Evaluations -/

/-- The formatter on the keys of each shape, with a CID library that accepts
the two-byte strings: empty, a lone slash, a path with a bad CID, a path with a
good CID, a bare good CID and a bare bad CID. -/
theorem tryFormatLoggableKey_evaluated :
    tryFormatLoggableKey sampleCid [] =
      some ([], some (.errorf "loggableKey is empty" none)) ∧
    tryFormatLoggableKey sampleCid (lit "/") =
      some (lit "/", some (.errorf "loggableKey starts with '/' but is not a path: %x"
        (some (lit "/")))) ∧
    tryFormatLoggableKey sampleCid (lit "/ab/c") =
      some ([], some (.errorfWrap "loggableKey could not cast key to a CID: %x %v"
        (lit "/ab/c") (.remote 1))) ∧
    tryFormatLoggableKey sampleCid (lit "/ab/cd") = some (lit "/ab/cdcd", none) ∧
    tryFormatLoggableKey sampleCid (lit "cd") = some (lit "/provider/cdcd", none) ∧
    tryFormatLoggableKey sampleCid (lit "c") =
      some ([], some (.errorfWrap "loggableKey could not cast key to a CID: %x %v"
        (lit "c") (.remote 1))) := by
  decide

/-- The walk-through of the specification: seeds `A`, `B`, `C` at distances 5, 9
and 12, of which `A` reports `D` at distance 2. The first round dispatches the
three seeds, the second round dispatches `D`, and the answer is `D, A, B, C`. -/
theorem specRun_walkthrough :
    (selectNextBatch [0] 3 (seed [[5], [9], [12]])).1 = [[5], [9], [12]] ∧
    (selectNextBatch [0] 3 (round [77] 3 (newClosestPeersQuery scenarioDeps sampleCtx [0] none)
      sampleCtx (seed [[5], [9], [12]]))).1 = [[2]] ∧
    specRun [77] 3 20 (newClosestPeersQuery scenarioDeps sampleCtx [0] none) sampleCtx
      [[5], [9], [12]] = ([[2], [5], [9], [12]], none) := by
  decide

/-- The second walk-through of the specification: with a concurrency limit of
one and seeds at distances 1 and 2, the closer seed is the one dispatched. -/
theorem selectNextBatch_prefers_closer :
    (selectNextBatch [0] 1 (seed [[2], [1]])).1 = [[1]] := by
  decide

/-- The single-hop query and the query step on the sample node: the reachable
peer `5` and the unreachable peer `9`. -/
theorem closestPeersStep_evaluated :
    GetClosestPeersSingle sampleDeps callCtx [5] [0] =
      ((some [{ ID := [2], Addrs := [] }], none), [.findPeer callCtx [5] [0]]) ∧
    (newClosestPeersQuery sampleDeps sampleCtx [0] none).qfunc callCtx [5] =
      ((some [{ ID := [2], Addrs := [] }], none),
       [.publish sampleCtx { ID := [5], Type_ := .SendingQuery, Responses := none },
        .findPeer callCtx [5] [0],
        .publish sampleCtx { ID := [5], Type_ := .PeerResponse,
                             Responses := some [{ ID := [2], Addrs := [] }] }]) ∧
    GetClosestPeersSingle sampleDeps callCtx [9] [0] =
      ((none, some (.remote 3)),
       [.findPeer callCtx [9] [0], .debugf "error getting closer peers: %s" (.remote 3)]) := by
  decide

end Lookup
